import Mathlib

/-!
Verification of the job-orchestration core of the headshot-harmonizer app.

Shallow embedding of:
* `retryableRequest` (src/services/geminiService.ts),
* `convertImageToBase64` (src/utils/fileUtils.ts, the `ConversionOptions` revision),
* `handleEmployeesUpload` and `processPendingImages` (src/App.tsx).

Asynchronous external calls are modelled by environments that supply the
outcome of each call (success value or thrown error message); the embedding
additionally returns a trace of the external-service invocations performed,
so that "the service was (not) called" becomes a statement about the trace.
-/

namespace Harmonizer

/-! ### Response shape consumed by `retryableRequest` (geminiService.ts)

Only the fields the source reads are modelled: `candidates[0].content.parts`,
`part.inlineData.data` (plus the declared `mimeType`), and
`promptFeedback.blockReason`.  `Option` models possibly-absent fields. -/

structure InlineData where
  mimeType : String
  data : Option String
deriving DecidableEq

structure ResponsePart where
  inlineData : Option InlineData
deriving DecidableEq

structure ResponseContent where
  parts : Option (List ResponsePart)
deriving DecidableEq

structure ResponseCandidate where
  content : Option ResponseContent
deriving DecidableEq

structure PromptFeedback where
  blockReason : Option String
deriving DecidableEq

structure GenerateContentResponse where
  candidates : Option (List ResponseCandidate)
  promptFeedback : Option PromptFeedback
deriving DecidableEq

/-- `MAX_RETRIES = 2`: the initial attempt + 2 retries = 3 total attempts. -/
def MAX_RETRIES : Nat := 2

/-- The `part.inlineData?.data` truthiness test of the part-scanning loop:
an empty string is falsy in JavaScript, so it yields no payload. -/
def partPayload (p : ResponsePart) : Option String :=
  match p.inlineData with
  | some idata =>
    match idata.data with
    | some d => if d = "" then none else some d
    | none => none
  | none => none

/-- The error message used when `candidates[0].content.parts` is missing:
`"Request blocked: …"` when `promptFeedback.blockReason` is truthy, otherwise
the generic invalid-response message. -/
def invalidResponseMessage (result : GenerateContentResponse) (requestName : String) : String :=
  let fallback := requestName ++ " failed. The model did not return a valid response."
  match result.promptFeedback with
  | some fb =>
    match fb.blockReason with
    | some r => if r = "" then fallback else "Request blocked: " ++ r
    | none => fallback
  | none => fallback

/-- The body of one `try` block of `retryableRequest`: validate the response,
scan the parts for the first truthy `inlineData.data`, and return it with the
literal `data:image/png;base64,` prefix; otherwise fail with the appropriate
message. -/
def processResponse (result : GenerateContentResponse) (requestName : String) :
    Except String String :=
  match result.candidates.bind List.head? with
  | none => .error (invalidResponseMessage result requestName)
  | some candidate =>
    match candidate.content with
    | none => .error (invalidResponseMessage result requestName)
    | some content =>
      match content.parts with
      | none => .error (invalidResponseMessage result requestName)
      | some parts =>
        match parts.findSome? partPayload with
        | some d => .ok ("data:image/png;base64," ++ d)
        | none => .error "No image data found in the response for this attempt."

/-- Outcome of one attempt: either `requestFn` itself rejected (left), or it
resolved and the response was processed. -/
def attemptOutcome (r : Except String GenerateContentResponse) (requestName : String) :
    Except String String :=
  match r with
  | .error e => .error e
  | .ok result => processResponse result requestName

/-- The final error thrown after the loop:
`` `${requestName} failed after ${MAX_RETRIES + 1} attempts. Last error: ${lastError?.message || 'Unknown'}` ``
(the `||` falls back to `"Unknown"` for an absent or empty message). -/
def finalErrorMessage (requestName : String) (lastError : Option String) : String :=
  requestName ++ " failed after " ++ toString (MAX_RETRIES + 1) ++ " attempts. Last error: " ++
    (match lastError with
     | some m => if m = "" then "Unknown" else m
     | none => "Unknown")

instance {ε α : Type} [DecidableEq ε] [DecidableEq α] : DecidableEq (Except ε α) := fun x y =>
  match x, y with
  | .ok a, .ok b => decidable_of_iff (a = b) (by simp)
  | .error a, .error b => decidable_of_iff (a = b) (by simp)
  | .ok _, .error _ => isFalse (by simp)
  | .error _, .ok _ => isFalse (by simp)

/-- Result of a `retryableRequest` run: its value, the number of times the
underlying operation was invoked, and the list of backoff delays (ms) that
were slept, in order. -/
structure RunResult where
  value : Except String String
  attempts : Nat
  delays : List Nat
deriving DecidableEq

/-- The `for (let attempt = 0; attempt <= MAX_RETRIES; attempt++)` loop.
`fuel` is the number of loop iterations still allowed, i.e.
`MAX_RETRIES + 1 - attempt`; all call sites maintain that invariant, so
`fuel = 0` is exactly the loop exiting with `attempt > MAX_RETRIES`, after
which the accumulated `lastError` is wrapped in the final error.  A delay of
`1000 * (attempt + 1)` ms is slept only when `attempt < MAX_RETRIES`. -/
def retryGo (requests : Nat → Except String GenerateContentResponse) (requestName : String) :
    Nat → Nat → Option String → RunResult
  | _, 0, lastError => ⟨.error (finalErrorMessage requestName lastError), 0, []⟩
  | attempt, fuel + 1, _lastError =>
    match attemptOutcome (requests attempt) requestName with
    | .ok value => ⟨.ok value, 1, []⟩
    | .error e =>
      let rest := retryGo requests requestName (attempt + 1) fuel (some e)
      ⟨rest.value, rest.attempts + 1,
        (if attempt < MAX_RETRIES then [1000 * (attempt + 1)] else []) ++ rest.delays⟩

/-- `retryableRequest` (geminiService.ts): run the loop from `attempt = 0`
with no recorded error.  `requests k` is the outcome of the `k`-th invocation
of the underlying `requestFn`. -/
def retryableRequest (requests : Nat → Except String GenerateContentResponse)
    (requestName : String) : RunResult :=
  retryGo requests requestName 0 (MAX_RETRIES + 1) none

/-- Claim C2: if every attempt fails, `retryableRequest` invokes the operation
exactly 3 times and throws an error embedding the operation name, the total
attempt count 3, and the last recorded error message; if the k-th attempt
(k ≤ 3) is the first to yield a generated-asset payload, the operation is
invoked exactly k times and the wrapper returns that payload. -/
theorem C2_retry_attempt_counts (requests : Nat → Except String GenerateContentResponse)
    (requestName : String) :
    (∀ e0 e1 e2, attemptOutcome (requests 0) requestName = .error e0 →
      attemptOutcome (requests 1) requestName = .error e1 →
      attemptOutcome (requests 2) requestName = .error e2 → e2 ≠ "" →
      retryableRequest requests requestName =
        ⟨.error (requestName ++ " failed after 3 attempts. Last error: " ++ e2),
          3, [1000, 2000]⟩)
    ∧ (∀ s, attemptOutcome (requests 0) requestName = .ok s →
        retryableRequest requests requestName = ⟨.ok s, 1, []⟩)
    ∧ (∀ e0 s, attemptOutcome (requests 0) requestName = .error e0 →
        attemptOutcome (requests 1) requestName = .ok s →
        retryableRequest requests requestName = ⟨.ok s, 2, [1000]⟩)
    ∧ (∀ e0 e1 s, attemptOutcome (requests 0) requestName = .error e0 →
        attemptOutcome (requests 1) requestName = .error e1 →
        attemptOutcome (requests 2) requestName = .ok s →
        retryableRequest requests requestName = ⟨.ok s, 3, [1000, 2000]⟩) := by
  refine ⟨?_, ?_, ?_, ?_⟩
  · intro e0 e1 e2 h0 h1 h2 hne
    have h3 : (" failed after " ++ toString (MAX_RETRIES + 1) ++ " attempts. Last error: "
        : String) = " failed after 3 attempts. Last error: " := rfl
    have hmsg : finalErrorMessage requestName (some e2)
        = requestName ++ " failed after 3 attempts. Last error: " ++ e2 := by
      show requestName ++ " failed after " ++ toString (MAX_RETRIES + 1)
          ++ " attempts. Last error: " ++ (if e2 = "" then "Unknown" else e2) = _
      rw [if_neg hne, String.append_assoc requestName, String.append_assoc requestName, h3]
    simp [retryableRequest, retryGo, MAX_RETRIES, h0, h1, h2, hmsg]
  · intro s h0
    simp [retryableRequest, retryGo, MAX_RETRIES, h0]
  · intro e0 s h0 h1
    simp [retryableRequest, retryGo, MAX_RETRIES, h0, h1]
  · intro e0 e1 s h0 h1 h2
    simp [retryableRequest, retryGo, MAX_RETRIES, h0, h1, h2]

/-- Witness for C2 at a concrete always-failing operation and a concrete
operation succeeding on the second attempt. -/
theorem C2_retry_attempt_counts_witness :
    retryableRequest (fun _ => .error "network down") "Master Background Generation" =
      ⟨.error ("Master Background Generation failed after 3 attempts. Last error: network down"),
        3, [1000, 2000]⟩
    ∧ retryableRequest
        (fun k => if k = 0 then .error "boom"
          else .ok ⟨some [⟨some ⟨some [⟨some ⟨"image/png", some "QUJD"⟩⟩]⟩⟩], none⟩)
        "Headshot Processing" =
      ⟨.ok "data:image/png;base64,QUJD", 2, [1000]⟩ := by
  constructor
  · exact (C2_retry_attempt_counts (fun _ => .error "network down")
      "Master Background Generation").1 "network down" "network down" "network down"
      rfl rfl rfl (by decide)
  · exact (C2_retry_attempt_counts _ "Headshot Processing").2.2.1 "boom"
      "data:image/png;base64,QUJD" rfl rfl

/-- Claim C7: a backoff delay occurs only between a failed attempt and the
next retry and never after the final attempt, and the delay before the n-th
retry (1-based) is exactly `1000 * n` ms: for every run the slept delays are
exactly `[1000 * 1, …, 1000 * (attempts - 1)]`. -/
theorem C7_backoff_delays_linear (requests : Nat → Except String GenerateContentResponse)
    (requestName : String) :
    (retryableRequest requests requestName).delays =
      (List.range ((retryableRequest requests requestName).attempts - 1)).map
        (fun i => 1000 * (i + 1)) := by
  unfold retryableRequest
  cases h0 : attemptOutcome (requests 0) requestName with
  | ok v0 => simp [retryGo, MAX_RETRIES, h0]
  | error e0 =>
    cases h1 : attemptOutcome (requests 1) requestName with
    | ok v1 =>
      simp [retryGo, MAX_RETRIES, h0, h1, List.range_succ]
    | error e1 =>
      cases h2 : attemptOutcome (requests 2) requestName with
      | ok v2 => simp [retryGo, MAX_RETRIES, h0, h1, h2, List.range_succ]
      | error e2 => simp [retryGo, MAX_RETRIES, h0, h1, h2, List.range_succ]

/-- Skipping parts without a truthy payload: `findSome?` over a prefix that
yields nothing continues in the rest of the list. -/
theorem findSome?_append_of_none {α β : Type} (f : α → Option β) (pre l : List α)
    (h : ∀ p ∈ pre, f p = none) :
    (pre ++ l).findSome? f = l.findSome? f := by
  induction pre with
  | nil => rfl
  | cons p rest ih =>
    have hp : f p = none := h p (List.mem_cons_self _ _)
    simp only [List.cons_append, List.findSome?_cons, hp]
    exact ih fun q hq => h q (List.mem_cons_of_mem _ hq)

/-- Claim C10: when a response carries several generated-asset parts, the
wrapper returns the payload of the first part (in part order) with a truthy
`inlineData.data`, prefixed with the literal `data:image/png;base64,` —
regardless of the part's declared mime type — and all later parts are
ignored. -/
theorem C10_first_payload_png_header
    (requests : Nat → Except String GenerateContentResponse) (requestName : String)
    (pre post : List ResponsePart) (idata : InlineData) (d : String)
    (cs : List ResponseCandidate) (fb : Option PromptFeedback)
    (hreq : requests 0 =
      .ok ⟨some (⟨some ⟨some (pre ++ ⟨some idata⟩ :: post)⟩⟩ :: cs), fb⟩)
    (hpre : ∀ p ∈ pre, partPayload p = none)
    (hd : idata.data = some d) (hne : d ≠ "") :
    retryableRequest requests requestName =
      ⟨.ok ("data:image/png;base64," ++ d), 1, []⟩ := by
  have hpart : partPayload ⟨some idata⟩ = some d := by
    show (match idata.data with
          | some x => if x = "" then none else some x
          | none => none) = some d
    rw [hd]
    exact if_neg hne
  have hfs : (pre ++ (⟨some idata⟩ : ResponsePart) :: post).findSome? partPayload = some d := by
    rw [findSome?_append_of_none partPayload pre _ hpre,
        List.findSome?_cons_of_isSome _ (by rw [hpart]; rfl), hpart]
  have hattempt : attemptOutcome (requests 0) requestName =
      .ok ("data:image/png;base64," ++ d) := by
    rw [hreq]
    rw [show attemptOutcome
          (Except.ok (⟨some (⟨some ⟨some (pre ++ ⟨some idata⟩ :: post)⟩⟩ :: cs), fb⟩
            : GenerateContentResponse)) requestName
        = match (pre ++ (⟨some idata⟩ : ResponsePart) :: post).findSome? partPayload with
          | some x => Except.ok ("data:image/png;base64," ++ x)
          | none => Except.error "No image data found in the response for this attempt."
        from rfl, hfs]
  simp [retryableRequest, retryGo, MAX_RETRIES, hattempt]

/-- Witness for C10: a response whose first payload part declares mime type
`image/jpeg` and is followed by another payload part; the wrapper still
returns the first payload with the PNG prefix. -/
theorem C10_first_payload_png_header_witness :
    retryableRequest
      (fun _ => .ok ⟨some [⟨some ⟨some [⟨none⟩, ⟨some ⟨"image/jpeg", some "Zmlyc3Q"⟩⟩,
        ⟨some ⟨"image/png", some "c2Vjb25k"⟩⟩]⟩⟩], none⟩)
      "Headshot Processing" =
      ⟨.ok "data:image/png;base64,Zmlyc3Q", 1, []⟩ := by
  exact C10_first_payload_png_header _ "Headshot Processing"
    [⟨none⟩] [⟨some ⟨"image/png", some "c2Vjb25k"⟩⟩] ⟨"image/jpeg", some "Zmlyc3Q"⟩
    "Zmlyc3Q" [] none rfl (by decide) rfl (by decide)

/-! ### Data model (src/types.ts) -/

inductive ProcessingStatus where
  | pending
  | processing
  | done
  | error
deriving DecidableEq

structure Base64Image where
  base64 : String
  mimeType : String
deriving DecidableEq

/-- The metadata of an uploaded `File` that the app reads: its name and its
`lastModified` timestamp. -/
structure FileMeta where
  name : String
  lastModified : Nat
deriving DecidableEq

/-! ### `convertImageToBase64` (src/utils/fileUtils.ts, `ConversionOptions` revision) -/

def TARGET_DIMENSION : Nat := 965

structure ConversionOptions where
  cropToSquare : Bool
deriving DecidableEq

/-- One `ctx.drawImage(img, sx, sy, sWidth, sHeight, dx, dy, dWidth, dHeight)`
call.  Source coordinates are rationals because JavaScript numbers admit the
fractional `(width - height) / 2` offsets.  The 3-argument form
`drawImage(img, 0, 0)` draws the whole source at natural size, recorded as
the full-source, full-size call. -/
structure DrawCall where
  sx : ℚ
  sy : ℚ
  sWidth : ℚ
  sHeight : ℚ
  dx : ℚ
  dy : ℚ
  dWidth : ℚ
  dHeight : ℚ
deriving DecidableEq

/-- The canvas produced by one conversion: its dimensions, the draw call
issued on it, and the mime type passed to `canvas.toDataURL`. -/
structure CanvasTrace where
  width : Nat
  height : Nat
  draw : DrawCall
  toDataURLMime : String
deriving DecidableEq

/-- Environment for one conversion: the browser callbacks.
`readerResult` is `FileReader`'s outcome (`.error` = `onerror`,
`.ok none` = a falsy `event.target.result`), `imageLoad` is the `Image`
decode outcome (`.error` = `onerror`, `.ok (w, h)` = natural dimensions),
`ctx2D` is whether `getContext('2d')` returns a context, and `toDataURL`
is the browser's PNG encoding of the finished canvas. -/
structure FileReadEnv where
  readerResult : Except String (Option String)
  imageLoad : Except String (Nat × Nat)
  ctx2D : Bool
  toDataURL : CanvasTrace → String

/-- JavaScript's `s.split(',')` on a character list.  The result is always
nonempty; the element after a separator starts a new chunk. -/
def splitCommaChars : List Char → List (List Char)
  | [] => [[]]
  | c :: rest =>
    let r := splitCommaChars rest
    if c = ',' then [] :: r
    else
      match r with
      | chunk :: chunks => (c :: chunk) :: chunks
      | [] => [[c]]

/-- JavaScript's `dataUrl.split(',')` (used as `split(',')[1]` in the source;
modelled at the character level because the split is on a single comma). -/
def jsSplitComma (s : String) : List String :=
  (splitCommaChars s.data).map String.mk

/-- `convertImageToBase64(file, options)`: on success, the resulting
`Base64Image` together with the canvas it was read from. -/
def convertImageToBase64 (env : FileReadEnv) (_file : FileMeta)
    (options : ConversionOptions) : Except String (Base64Image × CanvasTrace) :=
  match env.readerResult with
  | .error e => .error e
  | .ok none => .error "FileReader did not load the file."
  | .ok (some _dataUrl) =>
    match env.imageLoad with
    | .error e => .error ("Image could not be loaded: " ++ e)
    | .ok (originalWidth, originalHeight) =>
      if env.ctx2D = false then .error "Could not get canvas 2D context."
      else
        let trace : CanvasTrace :=
          if options.cropToSquare then
            -- Standardize to 965x965; center-crop a non-square source.
            let swh : ℚ × ℚ × ℚ × ℚ :=
              if originalWidth > originalHeight then
                -- Landscape: crop the sides.
                (((originalWidth : ℚ) - (originalHeight : ℚ)) / 2, 0,
                  (originalHeight : ℚ), (originalHeight : ℚ))
              else if originalHeight > originalWidth then
                -- Portrait: crop the top and bottom.
                (0, ((originalHeight : ℚ) - (originalWidth : ℚ)) / 2,
                  (originalWidth : ℚ), (originalWidth : ℚ))
              else (0, 0, (originalWidth : ℚ), (originalHeight : ℚ))
            ⟨TARGET_DIMENSION, TARGET_DIMENSION,
              ⟨swh.1, swh.2.1, swh.2.2.1, swh.2.2.2,
                0, 0, (TARGET_DIMENSION : ℚ), (TARGET_DIMENSION : ℚ)⟩, "image/png"⟩
          else
            -- Preserve original dimensions for assets like logos.
            ⟨originalWidth, originalHeight,
              ⟨0, 0, (originalWidth : ℚ), (originalHeight : ℚ),
                0, 0, (originalWidth : ℚ), (originalHeight : ℚ)⟩, "image/png"⟩
        let dataUrl := env.toDataURL trace
        let base64 := (jsSplitComma dataUrl).getD 1 ""
        .ok (⟨base64, "image/png"⟩, trace)

/-- Claim C9: `convertImageToBase64` always produces a PNG result; with
`cropToSquare = true` the canvas is exactly 965x965 and a non-square input is
center-cropped to the largest centered square (landscape: source x-offset
`(width - height) / 2` with source width = height; portrait: source y-offset
`(height - width) / 2` with source height = width); with
`cropToSquare = false` the canvas preserves the input's dimensions. -/
theorem C9_canonicalize_png_and_dimensions (env : FileReadEnv) (file : FileMeta)
    (options : ConversionOptions) (u : String) (w h : Nat)
    (hread : env.readerResult = .ok (some u))
    (hload : env.imageLoad = .ok (w, h))
    (hctx : env.ctx2D = true) :
    (convertImageToBase64 env file options).map (fun p => p.1.mimeType) = .ok "image/png"
    ∧ (convertImageToBase64 env file options).map (fun p => p.2.toDataURLMime)
        = .ok "image/png"
    ∧ (options.cropToSquare = true →
        (convertImageToBase64 env file options).map (fun p => (p.2.width, p.2.height))
          = .ok (965, 965)
        ∧ (w > h → (convertImageToBase64 env file options).map (fun p => p.2.draw)
            = .ok ⟨((w : ℚ) - (h : ℚ)) / 2, 0, (h : ℚ), (h : ℚ), 0, 0, 965, 965⟩)
        ∧ (h > w → (convertImageToBase64 env file options).map (fun p => p.2.draw)
            = .ok ⟨0, ((h : ℚ) - (w : ℚ)) / 2, (w : ℚ), (w : ℚ), 0, 0, 965, 965⟩)
        ∧ (w = h → (convertImageToBase64 env file options).map (fun p => p.2.draw)
            = .ok ⟨0, 0, (w : ℚ), (h : ℚ), 0, 0, 965, 965⟩))
    ∧ (options.cropToSquare = false →
        (convertImageToBase64 env file options).map (fun p => (p.2.width, p.2.height))
          = .ok (w, h)) := by
  have hnctx : ¬ env.ctx2D = false := by rw [hctx]; simp
  rcases options with ⟨b⟩
  cases b
  · -- cropToSquare = false: dimensions preserved
    refine ⟨?_, ?_, (by intro hc; cases hc), fun _ => ?_⟩ <;>
      simp [convertImageToBase64, hread, hload, hnctx, Except.map]
  · -- cropToSquare = true: 965x965 canvas with center-crop
    refine ⟨?_, ?_, fun _ => ?_, by intro hc; cases hc⟩
    · simp [convertImageToBase64, hread, hload, hnctx, Except.map]
    · simp [convertImageToBase64, hread, hload, hnctx, Except.map]
    refine ⟨by simp [convertImageToBase64, hread, hload, hnctx, Except.map,
      TARGET_DIMENSION], ?_, ?_, ?_⟩
    · intro hgt
      have h1 : ¬ h > w := Nat.lt_asymm hgt
      simp [convertImageToBase64, hread, hload, hnctx, Except.map, TARGET_DIMENSION, hgt, h1]
    · intro hgt
      have h1 : ¬ w > h := Nat.lt_asymm hgt
      simp [convertImageToBase64, hread, hload, hnctx, Except.map, TARGET_DIMENSION, hgt, h1]
    · intro heq
      have h1 : ¬ w > h := by omega
      have h2 : ¬ h > w := by omega
      simp [convertImageToBase64, hread, hload, hnctx, Except.map, TARGET_DIMENSION,
        h1, h2, heq]

/-- Witness for C9 on a concrete landscape input (1000x600, cropped to a
965x965 canvas with source rectangle x-offset (1000 - 600) / 2 = 200). -/
theorem C9_canonicalize_png_and_dimensions_witness :
    (convertImageToBase64
        ⟨.ok (some "data:image/jpeg;base64,RAW"), .ok (1000, 600), true,
          fun _ => "data:image/png;base64,T1VU"⟩ ⟨"a.jpg", 7⟩ ⟨true⟩).map
        (fun p => p.1.mimeType) = .ok "image/png"
    ∧ (convertImageToBase64
        ⟨.ok (some "data:image/jpeg;base64,RAW"), .ok (1000, 600), true,
          fun _ => "data:image/png;base64,T1VU"⟩ ⟨"a.jpg", 7⟩ ⟨true⟩).map
        (fun p => (p.2.width, p.2.height)) = .ok (965, 965)
    ∧ (convertImageToBase64
        ⟨.ok (some "data:image/jpeg;base64,RAW"), .ok (1000, 600), true,
          fun _ => "data:image/png;base64,T1VU"⟩ ⟨"a.jpg", 7⟩ ⟨true⟩).map
        (fun p => p.2.draw)
        = .ok ⟨(((1000 : Nat) : ℚ) - ((600 : Nat) : ℚ)) / 2, 0, ((600 : Nat) : ℚ),
            ((600 : Nat) : ℚ), 0, 0, 965, 965⟩ := by
  have h := C9_canonicalize_png_and_dimensions
    ⟨.ok (some "data:image/jpeg;base64,RAW"), .ok (1000, 600), true,
      fun _ => "data:image/png;base64,T1VU"⟩ ⟨"a.jpg", 7⟩ ⟨true⟩
    "data:image/jpeg;base64,RAW" 1000 600 rfl rfl rfl
  exact ⟨h.1, (h.2.2.1 rfl).1, (h.2.2.1 rfl).2.1 (by decide)⟩

/-! ### Orchestration (src/App.tsx)

`processPendingImages` is modelled as a function of the current app state and
a round environment giving each external call's outcome.  State updates that
React applies through functional updaters are applied in program order.  The
round returns the new state together with the trace of generation-service
invocations (`generateMasterBackground` / `processHeadshot`). -/

inductive AppState where
  | needs_logo
  | needs_photos
  | processing_photos
  | idle
deriving DecidableEq

structure EmployeeImage where
  id : String
  file : FileMeta
  originalUrl : String
  processedUrl : Option String
  status : ProcessingStatus
  error : Option String
deriving DecidableEq

structure AppModel where
  appState : AppState
  masterBackground : Option Base64Image
  companyLogo : Option Base64Image
  employeeImages : List EmployeeImage
deriving DecidableEq

/-- The record id from `handleEmployeesUpload`:
`` `${file.name}-${file.lastModified}` ``. -/
def mkId (file : FileMeta) : String :=
  file.name ++ "-" ++ toString file.lastModified

/-- `handleEmployeesUpload`: append one `pending` record per uploaded file
(`createObjectURL` models `URL.createObjectURL`). -/
def handleEmployeesUpload (createObjectURL : FileMeta → String) (files : List FileMeta)
    (m : AppModel) : AppModel :=
  let newImages := files.map fun file =>
    { id := mkId file, file := file, originalUrl := createObjectURL file,
      processedUrl := none, status := ProcessingStatus.pending, error := none }
  {m with employeeImages := m.employeeImages ++ newImages}

/-- An invocation of the external generation service, as recorded in a round
trace: `generateMasterBackground()`, or `processHeadshot` for the job with the
given id, supplied with the given master background. -/
inductive ExtCall where
  | genBackground
  | headshot (id : String) (bg : Base64Image)
deriving DecidableEq

/-- Environment of one round: the outcome `generateMasterBackground()` would
have (used at most once), and, for the task at each batch index, the outcomes
of its `convertImageToBase64` and `processHeadshot` calls (`.error` carries
the thrown error's message). -/
structure RoundEnv where
  bg : Except String String
  convert : Nat → Except String Base64Image
  headshot : Nat → Except String String

/-- The object a per-job task returns: `{id, status, url?, error?}`. -/
structure TaskValue where
  id : String
  status : ProcessingStatus
  url : Option String
  error : Option String
deriving DecidableEq

/-- A promise outcome as seen by `Promise.allSettled`. -/
inductive Settled (α : Type) where
  | fulfilled (value : α)
  | rejected (reason : String)
deriving DecidableEq

/-- The value fulfilled by the per-job task at batch index `idx`: the task
body catches every error of its own work and returns a `done`/`error`
object, so the task's promise always fulfills. -/
def taskValue (env : RoundEnv) (idx : Nat) (image : EmployeeImage) : TaskValue :=
  match env.convert idx with
  | .error e => ⟨image.id, .error, none, some e⟩
  | .ok _employeeImageBase64 =>
    match env.headshot idx with
    | .error e => ⟨image.id, .error, none, some e⟩
    | .ok processedImageUrl => ⟨image.id, .done, some processedImageUrl, none⟩

/-- One per-job task: its settled result, plus the external calls it issues
(`processHeadshot` is invoked, with the shared background, exactly when the
conversion step succeeded). -/
def perJobTask (env : RoundEnv) (currentMasterBackground : Base64Image)
    (idx : Nat) (image : EmployeeImage) : Settled TaskValue × List ExtCall :=
  (.fulfilled (taskValue env idx image),
    match env.convert idx with
    | .error _ => []
    | .ok _ => [.headshot image.id currentMasterBackground])

/-- `imagesToProcess.map(async (image) => …)`: one task per batch member,
indexed by its position in the batch. -/
def batchTasks (env : RoundEnv) (bg : Base64Image) :
    Nat → List EmployeeImage → List (Settled TaskValue × List ExtCall)
  | _, [] => []
  | idx, image :: rest => perJobTask env bg idx image :: batchTasks env bg (idx + 1) rest

/-- The `results.forEach` body for one fulfilled result, applied to the found
record: set its status, then set `processedUrl` when `done` with a truthy
url, or `error` when `error` with a truthy message. -/
def updateRecord (img : EmployeeImage) (v : TaskValue) : EmployeeImage :=
  let img1 := {img with status := v.status}
  let img2 :=
    if v.status = .done then
      match v.url with
      | some url => if url = "" then img1 else {img1 with processedUrl := some url}
      | none => img1
    else img1
  if v.status = .error then
    match v.error with
    | some e => if e = "" then img2 else {img2 with error := some e}
    | none => img2
  else img2

/-- Apply one fulfilled result: `findIndex` locates the first record whose id
matches and that record is updated in place; with no match
(`findIndex === -1`) the list is unchanged. -/
def applyUpdate (v : TaskValue) : List EmployeeImage → List EmployeeImage
  | [] => []
  | img :: rest =>
    if img.id = v.id then updateRecord img v :: rest
    else img :: applyUpdate v rest

/-- The fan-in `results.forEach`: fulfilled results are applied in order;
rejected results are skipped (only `result.status === 'fulfilled'` is
handled). -/
def fanIn : List (Settled TaskValue) → List EmployeeImage → List EmployeeImage
  | [], imgs => imgs
  | .fulfilled v :: rest, imgs => fanIn rest (applyUpdate v imgs)
  | .rejected _ :: rest, imgs => fanIn rest imgs

/-- Step 2 of `processPendingImages`: fan the batch out
(`Promise.allSettled`), fan the results into the record list, and return to
idle (the `finally`). -/
def processBatch (env : RoundEnv) (currentMasterBackground : Base64Image)
    (imagesToProcess : List EmployeeImage) (m : AppModel) : AppModel × List ExtCall :=
  let tasks := batchTasks env currentMasterBackground 0 imagesToProcess
  let results := tasks.map Prod.fst
  let calls := (tasks.map Prod.snd).flatten
  ({m with employeeImages := fanIn results m.employeeImages, appState := .idle}, calls)

/-- Steps 1-2 of `processPendingImages` after the batch was snapshotted and
bulk-marked: use the cached master background if present; otherwise call
`generateMasterBackground` once.  On its failure, mark every record whose id
is a batch id `error` with the propagated message and return to idle without
any per-job work; on success cache the background and process the batch. -/
def ensureBackgroundAndProcess (env : RoundEnv) (imagesToProcess : List EmployeeImage)
    (m1 : AppModel) : AppModel × List ExtCall :=
  match m1.masterBackground with
  | some currentMasterBackground =>
    processBatch env currentMasterBackground imagesToProcess m1
  | none =>
    match env.bg with
    | .error err =>
      let errorMessage := err
      ({m1 with
          employeeImages := m1.employeeImages.map fun img =>
            if imagesToProcess.any (fun p => p.id == img.id)
            then {img with status := .error, error := some errorMessage} else img,
          appState := .idle}, [.genBackground])
    | .ok bgDataUrl =>
      let base64 := (jsSplitComma bgDataUrl).getD 1 ""
      let currentMasterBackground : Base64Image := ⟨base64, "image/png"⟩
      let m2 := {m1 with masterBackground := some currentMasterBackground}
      let r := processBatch env currentMasterBackground imagesToProcess m2
      (r.1, .genBackground :: r.2)

/-- The `pending` snapshot `imagesToProcess` taken at the start of a round. -/
def pendingOf (m : AppModel) : List EmployeeImage :=
  m.employeeImages.filter fun img => img.status == .pending

/-- `processPendingImages` (App.tsx): guard on the logo and on a nonempty
pending set, snapshot the batch, bulk-mark every record with a batch id as
`processing`, then ensure the background and process the batch. -/
def processPendingImages (env : RoundEnv) (m : AppModel) : AppModel × List ExtCall :=
  match m.companyLogo with
  | none => (m, [])
  | some _companyLogo =>
    let imagesToProcess := pendingOf m
    if imagesToProcess.isEmpty then (m, [])
    else
      let marked := m.employeeImages.map fun img =>
        if imagesToProcess.any (fun p => p.id == img.id)
        then {img with status := .processing} else img
      ensureBackgroundAndProcess env imagesToProcess
        {m with appState := .processing_photos, employeeImages := marked}

/-- A round during which `handleEmployeesUpload` appends new records while
the batch is in flight: the submission lands after the bulk `processing`
update (the round's first await point) and before the later updates of the
same round are applied. -/
def processPendingImagesWithSubmission (env : RoundEnv) (m : AppModel)
    (newJobs : List EmployeeImage) : AppModel × List ExtCall :=
  match m.companyLogo with
  | none => (m, [])
  | some _companyLogo =>
    let imagesToProcess := pendingOf m
    if imagesToProcess.isEmpty then (m, [])
    else
      let marked := m.employeeImages.map fun img =>
        if imagesToProcess.any (fun p => p.id == img.id)
        then {img with status := .processing} else img
      ensureBackgroundAndProcess env imagesToProcess
        {m with appState := .processing_photos, employeeImages := marked ++ newJobs}

/-- Consecutive orchestration rounds (the `useEffect` re-check after each
return to idle). -/
def runRounds : List RoundEnv → AppModel → AppModel × List ExtCall
  | [], m => (m, [])
  | env :: rest, m =>
    let r := processPendingImages env m
    let r2 := runRounds rest r.1
    (r2.1, r.2 ++ r2.2)

/-- Find the first record with the given id (`findIndex` / `find?` view of
the registry). -/
def lookupId (imgs : List EmployeeImage) (x : String) : Option EmployeeImage :=
  imgs.find? fun r => r.id == x

/-- Well-formedness of the collaborator outcomes: `processHeadshot` resolves
to a (nonempty) `data:image/png;base64,…` URL and every thrown `Error`
carries a nonempty message — as is the case for the wrapper and converter in
this codebase. -/
def EnvWF (env : RoundEnv) : Prop :=
  (∀ i s, env.headshot i = .ok s → s ≠ "")
  ∧ (∀ i e, env.headshot i = .error e → e ≠ "")
  ∧ (∀ i e, env.convert i = .error e → e ≠ "")

/-- A task value that is terminal with its detail set: `done` with a truthy
url or `error` with a truthy message. -/
def TerminalValue (v : TaskValue) : Prop :=
  (v.status = .done ∧ ∃ u, v.url = some u ∧ u ≠ "")
  ∨ (v.status = .error ∧ ∃ e, v.error = some e ∧ e ≠ "")

/-! ### Helper lemmas about the orchestration model -/

theorem updateRecord_id (img : EmployeeImage) (v : TaskValue) :
    (updateRecord img v).id = img.id := by
  unfold updateRecord
  dsimp only
  repeat' split
  all_goals rfl

theorem taskValue_id (env : RoundEnv) (idx : Nat) (image : EmployeeImage) :
    (taskValue env idx image).id = image.id := by
  unfold taskValue
  split
  · rfl
  · split <;> rfl

theorem applyUpdate_id_map (v : TaskValue) (l : List EmployeeImage) :
    (applyUpdate v l).map (fun r => r.id) = l.map (fun r => r.id) := by
  induction l with
  | nil => rfl
  | cons img rest ih =>
    unfold applyUpdate
    split
    · simp [updateRecord_id]
    · simp [ih]

theorem fanIn_id_map (rs : List (Settled TaskValue)) (l : List EmployeeImage) :
    (fanIn rs l).map (fun r => r.id) = l.map (fun r => r.id) := by
  induction rs generalizing l with
  | nil => rfl
  | cons r rest ih =>
    cases r with
    | fulfilled v => rw [fanIn, ih, applyUpdate_id_map]
    | rejected reason => rw [fanIn, ih]

/-- Unfolding of a round whose guards pass. -/
theorem processPendingImages_eq (env : RoundEnv) (m : AppModel) (L : Base64Image)
    (hlogo : m.companyLogo = some L) (hne : pendingOf m ≠ []) :
    processPendingImages env m =
      ensureBackgroundAndProcess env (pendingOf m)
        {m with
          appState := .processing_photos
          employeeImages := m.employeeImages.map fun img =>
            if (pendingOf m).any (fun p => p.id == img.id)
            then {img with status := .processing} else img} := by
  unfold processPendingImages
  rw [hlogo]
  simp only [List.isEmpty_eq_true, hne, if_false]

/-- Unfolding of a mid-flight-submission round whose guards pass. -/
theorem processPendingImagesWithSubmission_eq (env : RoundEnv) (m : AppModel)
    (newJobs : List EmployeeImage) (L : Base64Image)
    (hlogo : m.companyLogo = some L) (hne : pendingOf m ≠ []) :
    processPendingImagesWithSubmission env m newJobs =
      ensureBackgroundAndProcess env (pendingOf m)
        {m with
          appState := .processing_photos
          employeeImages := (m.employeeImages.map fun img =>
            if (pendingOf m).any (fun p => p.id == img.id)
            then {img with status := .processing} else img) ++ newJobs} := by
  unfold processPendingImagesWithSubmission
  rw [hlogo]
  simp only [List.isEmpty_eq_true, hne, if_false]

/-- Claim C1: if the shared-resource creation step (`generateMasterBackground`
through the retry wrapper) fails for a batch, every record whose id is a
batch id is set to `error` with the propagated message as its error detail,
`processHeadshot` is never invoked (the round's external-call trace is just
the one background call), and the orchestrator returns to `idle`. -/
theorem C1_background_failure_fails_whole_batch (env : RoundEnv) (m : AppModel)
    (L : Base64Image) (msg : String)
    (hlogo : m.companyLogo = some L)
    (hmb : m.masterBackground = none)
    (hne : pendingOf m ≠ [])
    (hfail : env.bg = .error msg) :
    (∀ rec ∈ (processPendingImages env m).1.employeeImages,
      (∃ p ∈ pendingOf m, p.id = rec.id) →
        rec.status = .error ∧ rec.error = some msg)
    ∧ (processPendingImages env m).2 = [.genBackground]
    ∧ (processPendingImages env m).1.appState = .idle := by
  rw [processPendingImages_eq env m L hlogo hne]
  rw [show ensureBackgroundAndProcess env (pendingOf m)
        {m with
          appState := .processing_photos
          employeeImages := m.employeeImages.map fun img =>
            if (pendingOf m).any (fun p => p.id == img.id)
            then {img with status := .processing} else img}
      = ensureBackgroundAndProcess env (pendingOf m)
        {appState := .processing_photos
         masterBackground := none
         companyLogo := some L
         employeeImages := m.employeeImages.map fun img =>
            if (pendingOf m).any (fun p => p.id == img.id)
            then {img with status := .processing} else img}
      from by rw [← hmb, ← hlogo]]
  unfold ensureBackgroundAndProcess
  rw [hfail]
  refine ⟨?_, rfl, rfl⟩
  intro rec hrec hid
  obtain ⟨p, hp, hpid⟩ := hid
  simp only [List.mem_map] at hrec
  obtain ⟨mid, hmid, hrec⟩ := hrec
  obtain ⟨orig, _horig, hmid⟩ := hmid
  have hidmid : mid.id = orig.id := by
    rw [← hmid]
    split
    · rfl
    · rfl
  have hany : (pendingOf m).any (fun p => p.id == mid.id) = true := by
    refine List.any_eq_true.mpr ⟨p, hp, ?_⟩
    have : rec.id = mid.id := by
      rw [← hrec]
      split
      · rfl
      · rfl
    rw [beq_iff_eq, ← this, hpid]
  rw [← hrec, if_pos hany]
  exact ⟨rfl, rfl⟩

/-! ### Fan-in machinery: lookups by id through `applyUpdate`/`fanIn` -/

theorem lookupId_applyUpdate (v : TaskValue) (l : List EmployeeImage) (x : String) :
    lookupId (applyUpdate v l) x =
      if x = v.id then (lookupId l x).map (fun r => updateRecord r v)
      else lookupId l x := by
  induction l with
  | nil =>
    unfold applyUpdate lookupId
    simp
  | cons img rest ih =>
    unfold applyUpdate
    by_cases h1 : img.id = v.id
    · rw [if_pos h1]
      by_cases h2 : x = v.id
      · subst h2
        rw [if_pos rfl]
        have hpos1 : ((updateRecord img v).id == v.id) = true := by
          simp [updateRecord_id, h1]
        have hpos2 : (img.id == v.id) = true := by simp [h1]
        simp only [lookupId, List.find?_cons, hpos1, hpos2]
        rfl
      · rw [if_neg h2]
        have hneg1 : ((updateRecord img v).id == x) = false := by
          simp only [updateRecord_id, h1, beq_eq_false_iff_ne, ne_eq]
          exact fun hc => h2 hc.symm
        have hneg2 : (img.id == x) = false := by
          simp only [h1, beq_eq_false_iff_ne, ne_eq]
          exact fun hc => h2 hc.symm
        simp only [lookupId, List.find?_cons, hneg1, hneg2]
    · rw [if_neg h1]
      by_cases h2 : x = v.id
      · subst h2
        rw [if_pos rfl]
        have hneg : (img.id == v.id) = false := by
          simp only [beq_eq_false_iff_ne, ne_eq]; exact h1
        simp only [lookupId, List.find?_cons, hneg]
        have ih' := ih
        rw [if_pos rfl] at ih'
        simpa only [lookupId] using ih'
      · rw [if_neg h2]
        have ih' := ih
        rw [if_neg h2] at ih'
        by_cases h3 : (img.id == x) = true
        · simp only [lookupId, List.find?_cons, h3]
        · simp only [lookupId, List.find?_cons, Bool.not_eq_true] at h3 ⊢
          simp only [h3]
          simpa only [lookupId] using ih'

/-- The ids carried by the fulfilled results of a settled list. -/
def resultIds (rs : List (Settled TaskValue)) : List String :=
  rs.filterMap fun r =>
    match r with
    | .fulfilled v => some v.id
    | .rejected _ => none

theorem mem_resultIds_of_mem {v : TaskValue} {rs : List (Settled TaskValue)}
    (h : Settled.fulfilled v ∈ rs) : v.id ∈ resultIds rs := by
  unfold resultIds
  exact List.mem_filterMap.mpr ⟨.fulfilled v, h, rfl⟩

theorem exists_of_mem_resultIds {x : String} {rs : List (Settled TaskValue)}
    (h : x ∈ resultIds rs) : ∃ v, Settled.fulfilled v ∈ rs ∧ v.id = x := by
  unfold resultIds at h
  obtain ⟨r, hr, hrx⟩ := List.mem_filterMap.mp h
  cases r with
  | fulfilled v => exact ⟨v, hr, by injection hrx⟩
  | rejected reason => exact absurd hrx (by simp)

theorem lookupId_fanIn_not_mem (rs : List (Settled TaskValue)) (l : List EmployeeImage)
    (x : String) (hx : x ∉ resultIds rs) :
    lookupId (fanIn rs l) x = lookupId l x := by
  induction rs generalizing l with
  | nil => rfl
  | cons r rest ih =>
    cases r with
    | rejected reason =>
      rw [fanIn]
      exact ih _ hx
    | fulfilled v =>
      have hx' := hx
      rw [show resultIds (Settled.fulfilled v :: rest) = v.id :: resultIds rest from rfl] at hx'
      simp only [List.mem_cons, not_or] at hx'
      rw [fanIn, ih _ hx'.2, lookupId_applyUpdate, if_neg hx'.1]

theorem lookupId_fanIn_of_mem (rs : List (Settled TaskValue)) (l : List EmployeeImage)
    (v : TaskValue) (hnd : (resultIds rs).Nodup) (hv : Settled.fulfilled v ∈ rs) :
    lookupId (fanIn rs l) v.id = (lookupId l v.id).map (fun r => updateRecord r v) := by
  induction rs generalizing l with
  | nil => cases hv
  | cons r rest ih =>
    cases r with
    | rejected reason =>
      have hv' : Settled.fulfilled v ∈ rest := by
        rcases List.mem_cons.mp hv with h | h
        · exact absurd h (by simp)
        · exact h
      rw [fanIn]
      exact ih _ hnd hv'
    | fulfilled w =>
      have hnd' := hnd
      rw [show resultIds (Settled.fulfilled w :: rest) = w.id :: resultIds rest from rfl,
        List.nodup_cons] at hnd'
      rcases List.mem_cons.mp hv with h | h
      · have hvw : v = w := by injection h
        subst hvw
        rw [fanIn, lookupId_fanIn_not_mem _ _ _ hnd'.1, lookupId_applyUpdate, if_pos rfl]
      · have hvid : v.id ≠ w.id := fun hc => hnd'.1 (hc ▸ mem_resultIds_of_mem h)
        rw [fanIn, ih _ hnd'.2 h, lookupId_applyUpdate, if_neg hvid]

theorem lookupId_of_nodup (l : List EmployeeImage) (rec : EmployeeImage)
    (hnd : (l.map (fun r => r.id)).Nodup) (hmem : rec ∈ l) :
    lookupId l rec.id = some rec := by
  induction l with
  | nil => cases hmem
  | cons img rest ih =>
    rw [List.map_cons, List.nodup_cons] at hnd
    rcases List.mem_cons.mp hmem with rfl | h
    · have hpos : (rec.id == rec.id) = true := by simp
      simp only [lookupId, List.find?_cons, hpos]
    · have hne : (img.id == rec.id) = false := by
        simp only [beq_eq_false_iff_ne, ne_eq]
        intro hc
        exact hnd.1 (hc ▸ List.mem_map.mpr ⟨rec, h, rfl⟩)
      simp only [lookupId, List.find?_cons, hne]
      exact ih hnd.2 h

/-! ### Facts about the batch tasks -/

theorem resultIds_batchTasks (env : RoundEnv) (bg : Base64Image) :
    ∀ (k : Nat) (l : List EmployeeImage),
      resultIds ((batchTasks env bg k l).map Prod.fst) = l.map (fun r => r.id) := by
  intro k l
  induction l generalizing k with
  | nil => rfl
  | cons img rest ih =>
    show (taskValue env k img).id :: resultIds ((batchTasks env bg (k + 1) rest).map Prod.fst)
        = img.id :: rest.map (fun r => r.id)
    rw [taskValue_id, ih]

theorem terminal_of_mem_batchTasks (env : RoundEnv) (bg : Base64Image) (henv : EnvWF env) :
    ∀ (k : Nat) (l : List EmployeeImage) (v : TaskValue),
      Settled.fulfilled v ∈ (batchTasks env bg k l).map Prod.fst → TerminalValue v := by
  intro k l
  induction l generalizing k with
  | nil => intro v hv; cases hv
  | cons img rest ih =>
    intro v hv
    rcases List.mem_cons.mp hv with h | h
    · have hveq : v = taskValue env k img := by injection h
      subst hveq
      unfold taskValue TerminalValue
      rcases hc : env.convert k with e | b
      · exact Or.inr ⟨rfl, e, rfl, henv.2.2 k e hc⟩
      · rcases hh : env.headshot k with e | s
        · exact Or.inr ⟨rfl, e, rfl, henv.2.1 k e hh⟩
        · exact Or.inl ⟨rfl, s, rfl, henv.1 k s hh⟩
    · exact ih (k + 1) v h

theorem batchTasks_fst_getElem (env : RoundEnv) (bg : Base64Image) :
    ∀ (k : Nat) (l : List EmployeeImage) (i : Nat) (h : i < l.length),
      Settled.fulfilled (taskValue env (k + i) (l.get ⟨i, h⟩))
        ∈ (batchTasks env bg k l).map Prod.fst := by
  intro k l
  induction l generalizing k with
  | nil => intro i h; exact absurd h (by simp)
  | cons img rest ih =>
    intro i h
    cases i with
    | zero => exact List.mem_cons_self _ _
    | succ j =>
      refine List.mem_cons_of_mem _ ?_
      rw [show k + (j + 1) = (k + 1) + j from by omega]
      exact ih (k + 1) j (Nat.lt_of_succ_lt_succ h)

theorem mem_batchTasks_calls (env : RoundEnv) (bg : Base64Image) :
    ∀ (k : Nat) (l : List EmployeeImage) (c : ExtCall),
      c ∈ ((batchTasks env bg k l).map Prod.snd).flatten →
        ∃ j, c = ExtCall.headshot j bg := by
  intro k l
  induction l generalizing k with
  | nil => intro c hc; cases hc
  | cons img rest ih =>
    intro c hc
    rw [show ((batchTasks env bg k (img :: rest)).map Prod.snd).flatten
        = (perJobTask env bg k img).2
          ++ ((batchTasks env bg (k + 1) rest).map Prod.snd).flatten from rfl] at hc
    rcases List.mem_append.mp hc with h | h
    · unfold perJobTask at h
      rcases hconv : env.convert k with e | b

      · rw [hconv] at h; cases h
      · rw [hconv] at h
        rcases List.mem_cons.mp h with rfl | h
        · exact ⟨img.id, rfl⟩
        · cases h
    · exact ih (k + 1) c h

/-- Bulk-marking and terminal updates keep every record's id. -/
theorem marked_id_map (imgs batch : List EmployeeImage) :
    ((imgs.map fun img =>
      if batch.any (fun p => p.id == img.id)
      then {img with status := ProcessingStatus.processing} else img).map (fun r => r.id))
      = imgs.map (fun r => r.id) := by
  rw [List.map_map]
  apply List.map_congr_left
  intro img _
  show (if batch.any (fun p => p.id == img.id)
      then {img with status := ProcessingStatus.processing} else img).id = img.id
  split <;> rfl

theorem pendingOf_ids_nodup (m : AppModel)
    (hnd : (m.employeeImages.map (fun r => r.id)).Nodup) :
    ((pendingOf m).map (fun r => r.id)).Nodup :=
  hnd.sublist ((List.filter_sublist _).map _)

theorem updateRecord_terminal (w : EmployeeImage) (v : TaskValue) (h : TerminalValue v) :
    ((updateRecord w v).status = .done ∧ (updateRecord w v).processedUrl.isSome)
    ∨ ((updateRecord w v).status = .error ∧ (updateRecord w v).error.isSome) := by
  rcases h with ⟨hs, u, hu, hne⟩ | ⟨hs, e, he, hne⟩
  · left
    simp [updateRecord, hs, hu, hne]
  · right
    simp [updateRecord, hs, he, hne]

/-- Core of C4: after the fan-in of a batch with collision-free ids, every
record carrying a batch id is terminal with its detail set. -/
theorem processBatch_terminal (env : RoundEnv) (bg : Base64Image)
    (batch : List EmployeeImage) (m1 : AppModel) (henv : EnvWF env)
    (hnd1 : (m1.employeeImages.map (fun r => r.id)).Nodup)
    (hndb : (batch.map (fun r => r.id)).Nodup) :
    ∀ rec ∈ (processBatch env bg batch m1).1.employeeImages,
      rec.id ∈ batch.map (fun r => r.id) →
        (rec.status = .done ∧ rec.processedUrl.isSome)
        ∨ (rec.status = .error ∧ rec.error.isSome) := by
  intro rec hrec hid
  have hfinal : (processBatch env bg batch m1).1.employeeImages
      = fanIn ((batchTasks env bg 0 batch).map Prod.fst) m1.employeeImages := rfl
  rw [hfinal] at hrec
  have hndf : ((fanIn ((batchTasks env bg 0 batch).map Prod.fst)
      m1.employeeImages).map (fun r => r.id)).Nodup := by
    rw [fanIn_id_map]; exact hnd1
  have hlook := lookupId_of_nodup _ rec hndf hrec
  have hid' : rec.id ∈ resultIds ((batchTasks env bg 0 batch).map Prod.fst) := by
    rw [resultIds_batchTasks]; exact hid
  obtain ⟨v, hv, hvid⟩ := exists_of_mem_resultIds hid'
  have hndr : (resultIds ((batchTasks env bg 0 batch).map Prod.fst)).Nodup := by
    rw [resultIds_batchTasks]; exact hndb
  have hlook2 := lookupId_fanIn_of_mem _ m1.employeeImages v hndr hv
  rw [hvid] at hlook2
  rw [hlook2] at hlook
  rcases hw : lookupId m1.employeeImages rec.id with _ | w
  · rw [hw] at hlook; cases hlook
  · rw [hw] at hlook
    have hrecw : rec = updateRecord w v := by
      injection hlook with hh
      exact hh.symm

    have hterm := terminal_of_mem_batchTasks env bg henv 0 batch v hv
    rw [hrecw]
    exact updateRecord_terminal w v hterm

/-- Concrete model: one pending job, logo present, no cached background. -/
def mOnePending : AppModel :=
  ⟨.idle, none, some ⟨"TE9HTw", "image/png"⟩,
    [⟨"a-1", ⟨"a", 1⟩, "blob:0", none, .pending, none⟩]⟩

/-- Environment whose background generation fails. -/
def envBgFail : RoundEnv :=
  ⟨.error "Master Background Generation failed after 3 attempts. Last error: boom",
    fun _ => .ok ⟨"RU1Q", "image/png"⟩,
    fun _ => .ok "data:image/png;base64,T0s"⟩

/-- Witness for C1 at the concrete one-job model: the batch job's record ends
`error` carrying the propagated message, only the background call happened,
and the orchestrator is idle. -/
theorem C1_background_failure_fails_whole_batch_witness :
    ((⟨"a-1", ⟨"a", 1⟩, "blob:0", none, .error,
        some "Master Background Generation failed after 3 attempts. Last error: boom"⟩
        : EmployeeImage).status = .error
      ∧ (⟨"a-1", ⟨"a", 1⟩, "blob:0", none, .error,
          some "Master Background Generation failed after 3 attempts. Last error: boom"⟩
          : EmployeeImage).error =
        some "Master Background Generation failed after 3 attempts. Last error: boom")
    ∧ (processPendingImages envBgFail mOnePending).2 = [.genBackground]
    ∧ (processPendingImages envBgFail mOnePending).1.appState = .idle := by
  have h := C1_background_failure_fails_whole_batch envBgFail mOnePending
    ⟨"TE9HTw", "image/png"⟩
    "Master Background Generation failed after 3 attempts. Last error: boom"
    rfl rfl (by decide) rfl
  exact ⟨h.1 ⟨"a-1", ⟨"a", 1⟩, "blob:0", none, .error,
      some "Master Background Generation failed after 3 attempts. Last error: boom"⟩
      (by decide) ⟨⟨"a-1", ⟨"a", 1⟩, "blob:0", none, .pending, none⟩, by decide, by decide⟩,
    h.2.1, h.2.2⟩

/-- Terminal settlement lifted over the background-ensuring step. -/
theorem ensureBackground_terminal (env : RoundEnv) (batch : List EmployeeImage)
    (m1 : AppModel) (henv : EnvWF env)
    (hnd1 : (m1.employeeImages.map (fun r => r.id)).Nodup)
    (hndb : (batch.map (fun r => r.id)).Nodup)
    (hbg : m1.masterBackground.isSome ∨ ∃ u, env.bg = Except.ok u) :
    ∀ rec ∈ (ensureBackgroundAndProcess env batch m1).1.employeeImages,
      rec.id ∈ batch.map (fun r => r.id) →
        (rec.status = .done ∧ rec.processedUrl.isSome)
        ∨ (rec.status = .error ∧ rec.error.isSome) := by
  rcases hmb : m1.masterBackground with _ | bg
  · rcases hbg with hs | ⟨u, hu⟩
    · rw [hmb] at hs
      exact absurd hs (by simp)
    · unfold ensureBackgroundAndProcess
      rw [hmb, hu]
      exact processBatch_terminal env _ batch _ henv hnd1 hndb
  · unfold ensureBackgroundAndProcess
    rw [hmb]
    exact processBatch_terminal env bg batch m1 henv hnd1 hndb

/-- Claim C4 as amended: provided no two registry records share an id (and
the collaborator outcomes are well-formed nonempty strings, as this
codebase's wrapper and converter produce), after the fan-in step of a round
that reaches per-job processing, every record carrying a batch id has
received exactly one terminal update: `done` with its output reference set,
or `error` with its failure message set — no batch job remains
`processing`. -/
theorem C4_batch_settles_terminally (env : RoundEnv) (m : AppModel)
    (henv : EnvWF env)
    (hnd : (m.employeeImages.map (fun r => r.id)).Nodup)
    (hlogo : m.companyLogo.isSome)
    (hbg : m.masterBackground.isSome ∨ ∃ u, env.bg = Except.ok u) :
    ∀ rec ∈ (processPendingImages env m).1.employeeImages,
      rec.id ∈ (pendingOf m).map (fun r => r.id) →
        (rec.status = .done ∧ rec.processedUrl.isSome)
        ∨ (rec.status = .error ∧ rec.error.isSome) := by
  obtain ⟨L, hlogoL⟩ := Option.isSome_iff_exists.mp hlogo
  by_cases hpe : pendingOf m = []
  · intro rec _ hid
    rw [hpe] at hid
    cases hid
  · rw [processPendingImages_eq env m L hlogoL hpe]
    refine ensureBackground_terminal env (pendingOf m) _ henv ?_ (pendingOf_ids_nodup m hnd) hbg
    show ((m.employeeImages.map fun img =>
        if (pendingOf m).any (fun p => p.id == img.id)
        then {img with status := ProcessingStatus.processing} else img).map
          (fun r => r.id)).Nodup
    rw [marked_id_map]
    exact hnd

/-- Registry with two pending jobs whose records collide on the id
`"a-1"` (same file name and `lastModified`), with a cached background. -/
def mDupIds : AppModel :=
  ⟨.idle, some ⟨"QkdCNjQ", "image/png"⟩, some ⟨"TE9HTw", "image/png"⟩,
    [⟨"a-1", ⟨"a", 1⟩, "blob:0", none, .pending, none⟩,
     ⟨"a-1", ⟨"a", 1⟩, "blob:1", none, .pending, none⟩]⟩

/-- Environment in which every conversion and headshot call succeeds. -/
def envAllOk : RoundEnv :=
  ⟨.ok "data:image/png;base64,QkdVUkw",
    fun _ => .ok ⟨"RU1Q", "image/png"⟩,
    fun _ => .ok "data:image/png;base64,T0s"⟩

/-- Counterexample to C4 as stated: with two same-id jobs in one batch, both
fan-in updates hit the first record (`findIndex` by id), so the second batch
job's record is left in `processing` after the fan-in — not terminal. -/
theorem C4_duplicate_id_leaves_processing_counterexample :
    (mDupIds.employeeImages.filter (fun i => i.status == .pending)).length = 2
    ∧ ((processPendingImages envAllOk mDupIds).1.employeeImages.map (fun r => r.status))
      = [.done, .processing] := by decide

/-- Registry with two pending jobs with distinct ids and a cached
background. -/
def mTwoJobs : AppModel :=
  ⟨.idle, some ⟨"QkdCNjQ", "image/png"⟩, some ⟨"TE9HTw", "image/png"⟩,
    [⟨"a-1", ⟨"a", 1⟩, "blob:0", none, .pending, none⟩,
     ⟨"b-2", ⟨"b", 2⟩, "blob:1", none, .pending, none⟩]⟩

/-- Environment in which job 0's headshot call succeeds and job 1's fails
with an exhausted-retries message. -/
def envSecondFails : RoundEnv :=
  ⟨.ok "data:image/png;base64,QkdVUkw",
    fun _ => .ok ⟨"RU1Q", "image/png"⟩,
    fun i =>
      match i with
      | 0 => .ok "data:image/png;base64,T0s"
      | _ + 1 => .error "Headshot Processing failed after 3 attempts. Last error: boom"⟩

theorem envSecondFails_wf : EnvWF envSecondFails := by
  refine ⟨?_, ?_, ?_⟩
  · intro i s h
    cases i with
    | zero =>
      simp only [envSecondFails, Except.ok.injEq] at h
      rw [← h]
      decide
    | succ n =>
      simp only [envSecondFails] at h
      exact absurd h (by simp)
  · intro i e h
    cases i with
    | zero =>
      simp only [envSecondFails] at h
      exact absurd h (by simp)
    | succ n =>
      simp only [envSecondFails, Except.error.injEq] at h
      rw [← h]
      decide
  · intro i e h
    simp only [envSecondFails] at h
    exact absurd h (by simp)

/-- Witness for C4 (amended) at the two-job model where one sibling fails:
job `b-2`'s settled record is terminal. -/
theorem C4_batch_settles_terminally_witness :
    ((⟨"b-2", ⟨"b", 2⟩, "blob:1", none, .error,
        some "Headshot Processing failed after 3 attempts. Last error: boom"⟩
        : EmployeeImage).status = .done
      ∧ (⟨"b-2", ⟨"b", 2⟩, "blob:1", none, .error,
          some "Headshot Processing failed after 3 attempts. Last error: boom"⟩
          : EmployeeImage).processedUrl.isSome)
    ∨ ((⟨"b-2", ⟨"b", 2⟩, "blob:1", none, .error,
          some "Headshot Processing failed after 3 attempts. Last error: boom"⟩
          : EmployeeImage).status = .error
      ∧ (⟨"b-2", ⟨"b", 2⟩, "blob:1", none, .error,
          some "Headshot Processing failed after 3 attempts. Last error: boom"⟩
          : EmployeeImage).error.isSome) :=
  C4_batch_settles_terminally envSecondFails mTwoJobs envSecondFails_wf
    (by decide) (by decide) (Or.inl (by decide))
    ⟨"b-2", ⟨"b", 2⟩, "blob:1", none, .error,
      some "Headshot Processing failed after 3 attempts. Last error: boom"⟩
    (by decide) (by decide)

/-- A task's value depends only on its own call outcomes. -/
theorem taskValue_congr (env env' : RoundEnv) (i : Nat) (img : EmployeeImage)
    (hconv : env.convert i = env'.convert i) (hhead : env.headshot i = env'.headshot i) :
    taskValue env i img = taskValue env' i img := by
  unfold taskValue
  simp only [hconv, hhead]

/-- Core of C6: a batch member's post-fan-in record (looked up by its id)
depends only on that member's own call outcomes. -/
theorem processBatch_lookup_congr (env env' : RoundEnv) (bg : Base64Image)
    (batch : List EmployeeImage) (m1 : AppModel) (i : Nat) (B : EmployeeImage)
    (hndb : (batch.map (fun r => r.id)).Nodup)
    (hconv : env.convert i = env'.convert i)
    (hhead : env.headshot i = env'.headshot i)
    (hB : batch[i]? = some B) :
    lookupId (processBatch env bg batch m1).1.employeeImages B.id
      = lookupId (processBatch env' bg batch m1).1.employeeImages B.id := by
  obtain ⟨hi, hBi⟩ := List.getElem?_eq_some_iff.mp hB
  have hBg : batch.get ⟨i, hi⟩ = B := hBi
  have hv := batchTasks_fst_getElem env bg 0 batch i hi
  have hv' := batchTasks_fst_getElem env' bg 0 batch i hi
  have htv : taskValue env (0 + i) (batch.get ⟨i, hi⟩)
      = taskValue env' (0 + i) (batch.get ⟨i, hi⟩) := by
    rw [Nat.zero_add]
    exact taskValue_congr env env' i _ hconv hhead
  have hndr : (resultIds ((batchTasks env bg 0 batch).map Prod.fst)).Nodup := by
    rw [resultIds_batchTasks]; exact hndb
  have hndr' : (resultIds ((batchTasks env' bg 0 batch).map Prod.fst)).Nodup := by
    rw [resultIds_batchTasks]; exact hndb
  have h1 := lookupId_fanIn_of_mem _ m1.employeeImages _ hndr hv
  have h2 := lookupId_fanIn_of_mem _ m1.employeeImages _ hndr' hv'
  have hid : (taskValue env (0 + i) (batch.get ⟨i, hi⟩)).id = B.id := by
    rw [taskValue_id, hBg]
  have hid' : (taskValue env' (0 + i) (batch.get ⟨i, hi⟩)).id = B.id := by
    rw [taskValue_id, hBg]
  calc lookupId (processBatch env bg batch m1).1.employeeImages B.id
      = (lookupId m1.employeeImages B.id).map
          (fun r => updateRecord r (taskValue env (0 + i) (batch.get ⟨i, hi⟩))) := by
        rw [← hid]; exact h1
    _ = (lookupId m1.employeeImages B.id).map
          (fun r => updateRecord r (taskValue env' (0 + i) (batch.get ⟨i, hi⟩))) := by
        rw [htv]
    _ = lookupId (processBatch env' bg batch m1).1.employeeImages B.id := by
        rw [← hid']; exact h2.symm

/-- Core of C6 lifted over the background step. -/
theorem ensureBackground_lookup_congr (env env' : RoundEnv)
    (batch : List EmployeeImage) (m1 : AppModel) (i : Nat) (B : EmployeeImage)
    (hndb : (batch.map (fun r => r.id)).Nodup)
    (hbgeq : env.bg = env'.bg)
    (hconv : env.convert i = env'.convert i)
    (hhead : env.headshot i = env'.headshot i)
    (hB : batch[i]? = some B) :
    lookupId (ensureBackgroundAndProcess env batch m1).1.employeeImages B.id
      = lookupId (ensureBackgroundAndProcess env' batch m1).1.employeeImages B.id := by
  unfold ensureBackgroundAndProcess
  rcases hmb : m1.masterBackground with _ | bg
  · rcases hbgv : env.bg with e | u
    · have hbgv' : env'.bg = Except.error e := hbgeq ▸ hbgv
      rw [hbgv']
    · have hbgv' : env'.bg = Except.ok u := hbgeq ▸ hbgv
      rw [hbgv']
      exact processBatch_lookup_congr env env' _ batch _ i B hndb hconv hhead hB
  · exact processBatch_lookup_congr env env' bg batch m1 i B hndb hconv hhead hB

/-- Claim C6 as amended: provided no two registry records share an id, a
batch member B's registry record after the round — looked up by its id — is
the same in any two environments that agree on B's own conversion and call
outcomes (and on the shared-resource outcome): a sibling's failure or success
leaves B's record exactly as it would have been, and each fan-in update
touches only the record whose identifier it carries. -/
theorem C6_sibling_failure_frame (env env' : RoundEnv) (m : AppModel) (i : Nat)
    (B : EmployeeImage)
    (hnd : (m.employeeImages.map (fun r => r.id)).Nodup)
    (hbgeq : env.bg = env'.bg)
    (hconv : env.convert i = env'.convert i)
    (hhead : env.headshot i = env'.headshot i)
    (hB : (pendingOf m)[i]? = some B) :
    lookupId (processPendingImages env m).1.employeeImages B.id
      = lookupId (processPendingImages env' m).1.employeeImages B.id := by
  rcases hlogo : m.companyLogo with _ | L
  · unfold processPendingImages
    rw [hlogo]
  · by_cases hpe : pendingOf m = []
    · rw [hpe] at hB
      exact absurd hB (by simp)
    · rw [processPendingImages_eq env m L hlogo hpe,
        processPendingImages_eq env' m L hlogo hpe]
      exact ensureBackground_lookup_congr env env' (pendingOf m) _ i B
        (pendingOf_ids_nodup m hnd) hbgeq hconv hhead hB

/-- Environment for the duplicate-id registry in which both headshot calls
succeed. -/
def envSiblingOkDup : RoundEnv :=
  ⟨.ok "data:image/png;base64,QkdVUkw",
    fun _ => .ok ⟨"RU1Q", "image/png"⟩,
    fun i =>
      match i with
      | 0 => .ok "data:image/png;base64,T0s"
      | _ + 1 => .ok "data:image/png;base64,T0s5"⟩

/-- Same environment except that the second job's headshot call fails. -/
def envSiblingFailDup : RoundEnv :=
  ⟨.ok "data:image/png;base64,QkdVUkw",
    fun _ => .ok ⟨"RU1Q", "image/png"⟩,
    fun i =>
      match i with
      | 0 => .ok "data:image/png;base64,T0s"
      | _ + 1 => .error "Headshot Processing failed after 3 attempts. Last error: boom"⟩

/-- Counterexample to C6 as stated: in the duplicate-id registry, the two
environments agree on job B's (batch index 0) own outcomes and on the shared
resource, and differ only in sibling A's (batch index 1) outcome — yet B's
record (the first record, which both fan-in updates hit via `findIndex`)
ends `done` when A succeeds and `error` when A fails. -/
theorem C6_sibling_failure_frame_counterexample :
    envSiblingOkDup.bg = envSiblingFailDup.bg
    ∧ envSiblingOkDup.convert 0 = envSiblingFailDup.convert 0
    ∧ envSiblingOkDup.headshot 0 = envSiblingFailDup.headshot 0
    ∧ (pendingOf mDupIds)[0]? = some ⟨"a-1", ⟨"a", 1⟩, "blob:0", none, .pending, none⟩
    ∧ ((processPendingImages envSiblingOkDup mDupIds).1.employeeImages.head?.map
        (fun r => r.status)) = some .done
    ∧ ((processPendingImages envSiblingFailDup mDupIds).1.employeeImages.head?.map
        (fun r => r.status)) = some .error := by decide

/-- Witness for C6 (amended) at the distinct-id two-job registry: job
`a-1`'s record is unchanged between an all-succeed environment and one where
its sibling fails. -/
theorem C6_sibling_failure_frame_witness :
    lookupId (processPendingImages envAllOk mTwoJobs).1.employeeImages "a-1"
      = lookupId (processPendingImages envSecondFails mTwoJobs).1.employeeImages "a-1" :=
  C6_sibling_failure_frame envAllOk envSecondFails mTwoJobs 0
    ⟨"a-1", ⟨"a", 1⟩, "blob:0", none, .pending, none⟩
    (by decide) rfl rfl rfl (by decide)

/-! ### Shared-resource cache invariants (C3) -/

theorem processBatch_gen_count (env : RoundEnv) (bg : Base64Image)
    (batch : List EmployeeImage) (m1 : AppModel) :
    ((processBatch env bg batch m1).2.count ExtCall.genBackground) = 0 := by
  rw [List.count_eq_zero]
  intro hc
  obtain ⟨j, hj⟩ := mem_batchTasks_calls env bg 0 batch _ hc
  exact absurd hj (by simp)

theorem ensureBackground_gen_count (env : RoundEnv) (batch : List EmployeeImage)
    (m1 : AppModel) :
    ((ensureBackgroundAndProcess env batch m1).2.count ExtCall.genBackground) ≤ 1 := by
  unfold ensureBackgroundAndProcess
  rcases hmb : m1.masterBackground with _ | bg
  · rcases hbgv : env.bg with e | u
    · show (([ExtCall.genBackground] : List ExtCall).count ExtCall.genBackground) ≤ 1
      decide
    · show (ExtCall.genBackground ::
          (processBatch env ⟨(jsSplitComma u).getD 1 "", "image/png"⟩ batch
            {m1 with
              masterBackground := some ⟨(jsSplitComma u).getD 1 "", "image/png"⟩}).2).count
          ExtCall.genBackground ≤ 1
      rw [List.count_cons_self, processBatch_gen_count]
  · show ((processBatch env bg batch m1).2.count ExtCall.genBackground) ≤ 1
    rw [processBatch_gen_count]
    exact Nat.zero_le 1

theorem ensureBackground_cached (env : RoundEnv) (batch : List EmployeeImage)
    (m1 : AppModel) (bg : Base64Image) (hmb : m1.masterBackground = some bg) :
    (ensureBackgroundAndProcess env batch m1).1.masterBackground = some bg
    ∧ ∀ c ∈ (ensureBackgroundAndProcess env batch m1).2, ∃ j, c = ExtCall.headshot j bg := by
  unfold ensureBackgroundAndProcess
  rcases hmb' : m1.masterBackground with _ | bg2
  · rw [hmb'] at hmb; cases hmb
  · rw [hmb'] at hmb
    injection hmb with h
    subst h
    refine ⟨hmb', ?_⟩
    intro c hc
    exact mem_batchTasks_calls env bg2 0 batch c hc

theorem ensureBackground_bgfail_none (env : RoundEnv) (batch : List EmployeeImage)
    (m1 : AppModel) (e : String) (hmb : m1.masterBackground = none)
    (hbg : env.bg = Except.error e) :
    (ensureBackgroundAndProcess env batch m1).1.masterBackground = none := by
  unfold ensureBackgroundAndProcess
  rcases hmb' : m1.masterBackground with _ | bg
  · rw [hbg]
  · rw [hmb'] at hmb; cases hmb

theorem ensureBackground_gen_mem (env : RoundEnv) (batch : List EmployeeImage)
    (m1 : AppModel) (hmb : m1.masterBackground = none) :
    ExtCall.genBackground ∈ (ensureBackgroundAndProcess env batch m1).2 := by
  unfold ensureBackgroundAndProcess
  rcases hmb' : m1.masterBackground with _ | bg
  · rcases hbgv : env.bg with e | u
    · exact List.mem_cons_self _ _
    · exact List.mem_cons_self _ _
  · rw [hmb'] at hmb; cases hmb

theorem round_gen_count_le_one (env : RoundEnv) (m : AppModel) :
    ((processPendingImages env m).2.count ExtCall.genBackground) ≤ 1 := by
  rcases hlogo : m.companyLogo with _ | L
  · unfold processPendingImages
    rw [hlogo]
    show (([] : List ExtCall).count ExtCall.genBackground) ≤ 1
    decide
  · by_cases hpe : pendingOf m = []
    · unfold processPendingImages
      rw [hlogo, if_pos (by rw [hpe]; rfl)]
      show (([] : List ExtCall).count ExtCall.genBackground) ≤ 1
      decide
    · rw [processPendingImages_eq env m L hlogo hpe]
      exact ensureBackground_gen_count env (pendingOf m) _

theorem round_cached (env : RoundEnv) (m : AppModel) (bg : Base64Image)
    (hmb : m.masterBackground = some bg) :
    (processPendingImages env m).1.masterBackground = some bg
    ∧ ∀ c ∈ (processPendingImages env m).2, ∃ j, c = ExtCall.headshot j bg := by
  rcases hlogo : m.companyLogo with _ | L
  · unfold processPendingImages
    rw [hlogo]
    exact ⟨hmb, fun c hc => absurd hc (by simp)⟩
  · by_cases hpe : pendingOf m = []
    · unfold processPendingImages
      rw [hlogo, if_pos (by rw [hpe]; rfl)]
      exact ⟨hmb, fun c hc => absurd hc (by simp)⟩
    · rw [processPendingImages_eq env m L hlogo hpe]
      exact ensureBackground_cached env (pendingOf m) _ bg hmb

theorem round_bgfail_cache_none (env : RoundEnv) (m : AppModel) (e : String)
    (hmb : m.masterBackground = none) (hbg : env.bg = Except.error e) :
    (processPendingImages env m).1.masterBackground = none := by
  rcases hlogo : m.companyLogo with _ | L
  · unfold processPendingImages
    rw [hlogo]
    exact hmb
  · by_cases hpe : pendingOf m = []
    · unfold processPendingImages
      rw [hlogo, if_pos (by rw [hpe]; rfl)]
      exact hmb
    · rw [processPendingImages_eq env m L hlogo hpe]
      exact ensureBackground_bgfail_none env (pendingOf m) _ e hmb hbg

theorem round_gen_attempted (env : RoundEnv) (m : AppModel)
    (hmb : m.masterBackground = none) (hlogo : m.companyLogo.isSome)
    (hne : pendingOf m ≠ []) :
    ExtCall.genBackground ∈ (processPendingImages env m).2 := by
  obtain ⟨L, hlogoL⟩ := Option.isSome_iff_exists.mp hlogo
  rw [processPendingImages_eq env m L hlogoL hne]
  exact ensureBackground_gen_mem env (pendingOf m) _ hmb

theorem runRounds_cached (envs : List RoundEnv) (m : AppModel) (bg : Base64Image)
    (hmb : m.masterBackground = some bg) :
    (runRounds envs m).1.masterBackground = some bg
    ∧ ∀ c ∈ (runRounds envs m).2, ∃ j, c = ExtCall.headshot j bg := by
  induction envs generalizing m with
  | nil => exact ⟨hmb, fun c hc => absurd hc (List.not_mem_nil c)⟩
  | cons env rest ih =>
    have h1 := round_cached env m bg hmb
    have h2 := ih (processPendingImages env m).1 h1.1
    refine ⟨h2.1, ?_⟩
    intro c hc
    rw [show (runRounds (env :: rest) m).2
        = (processPendingImages env m).2 ++ (runRounds rest (processPendingImages env m).1).2
        from rfl] at hc
    rcases List.mem_append.mp hc with h | h
    · exact h1.2 c h
    · exact h2.2 c h

/-- Claim C3: at most one `generateMasterBackground` call is issued per
orchestration round; once the background is cached it is preserved and
supplied to every later round's headshot calls, and the external service is
never re-invoked for it; if creation fails the cache remains empty, and any
later round that requires the resource (pending jobs, logo present, empty
cache) attempts creation again. -/
theorem C3_shared_resource_cache (m : AppModel) :
    (∀ env, ((processPendingImages env m).2.count ExtCall.genBackground) ≤ 1)
    ∧ (∀ bg envs, m.masterBackground = some bg →
        (runRounds envs m).1.masterBackground = some bg
        ∧ (runRounds envs m).2.count ExtCall.genBackground = 0
        ∧ ∀ j b, ExtCall.headshot j b ∈ (runRounds envs m).2 → b = bg)
    ∧ (∀ env e, m.masterBackground = none → env.bg = Except.error e →
        (processPendingImages env m).1.masterBackground = none)
    ∧ (∀ env, m.masterBackground = none → m.companyLogo.isSome → pendingOf m ≠ [] →
        ExtCall.genBackground ∈ (processPendingImages env m).2) := by
  refine ⟨fun env => round_gen_count_le_one env m, ?_,
    fun env e h1 h2 => round_bgfail_cache_none env m e h1 h2,
    fun env h1 h2 h3 => round_gen_attempted env m h1 h2 h3⟩
  intro bg envs hmb
  have h := runRounds_cached envs m bg hmb
  refine ⟨h.1, ?_, ?_⟩
  · rw [List.count_eq_zero]
    intro hc
    obtain ⟨j, hj⟩ := h.2 _ hc
    exact absurd hj (by simp)
  · intro j b hcb
    obtain ⟨j', hj'⟩ := h.2 _ hcb
    exact (ExtCall.headshot.inj hj').2

/-- Witness for C3: a cached-background model never re-invokes the service,
and a failed creation leaves the cache empty while the creation call is in
the trace. -/
theorem C3_shared_resource_cache_witness :
    ((processPendingImages envAllOk mTwoJobs).2.count ExtCall.genBackground) ≤ 1
    ∧ (runRounds [envAllOk] mTwoJobs).1.masterBackground = some ⟨"QkdCNjQ", "image/png"⟩
    ∧ (runRounds [envAllOk] mTwoJobs).2.count ExtCall.genBackground = 0
    ∧ (processPendingImages envBgFail mOnePending).1.masterBackground = none
    ∧ ExtCall.genBackground ∈ (processPendingImages envBgFail mOnePending).2 := by
  have h1 := (C3_shared_resource_cache mTwoJobs).1 envAllOk
  have h2 := (C3_shared_resource_cache mTwoJobs).2.1 ⟨"QkdCNjQ", "image/png"⟩ [envAllOk] rfl
  have h3 := (C3_shared_resource_cache mOnePending).2.2.1 envBgFail
    "Master Background Generation failed after 3 attempts. Last error: boom" rfl rfl
  have h4 := (C3_shared_resource_cache mOnePending).2.2.2 envBgFail rfl (by decide) (by decide)
  exact ⟨h1, h2.1, h2.2.1, h3, h4⟩

/-! ### Mid-flight submissions (C5) -/

theorem applyUpdate_not_mem (v : TaskValue) (l : List EmployeeImage)
    (h : ∀ r ∈ l, r.id ≠ v.id) : applyUpdate v l = l := by
  induction l with
  | nil => rfl
  | cons img rest ih =>
    unfold applyUpdate
    rw [if_neg (h img (List.mem_cons_self _ _)), ih fun r hr => h r (List.mem_cons_of_mem _ hr)]

theorem applyUpdate_append (v : TaskValue) (l k : List EmployeeImage)
    (hk : ∀ r ∈ k, r.id ≠ v.id) :
    applyUpdate v (l ++ k) = applyUpdate v l ++ k := by
  induction l with
  | nil =>
    show applyUpdate v k = ([] : List EmployeeImage) ++ k
    rw [applyUpdate_not_mem v k hk, List.nil_append]
  | cons img rest ih =>
    show (if img.id = v.id then updateRecord img v :: (rest ++ k)
        else img :: applyUpdate v (rest ++ k))
      = (if img.id = v.id then updateRecord img v :: rest else img :: applyUpdate v rest) ++ k
    by_cases h1 : img.id = v.id
    · rw [if_pos h1, if_pos h1]
      rfl
    · rw [if_neg h1, if_neg h1, ih]
      rfl

theorem fanIn_append (rs : List (Settled TaskValue)) (l k : List EmployeeImage)
    (hk : ∀ v, Settled.fulfilled v ∈ rs → ∀ r ∈ k, r.id ≠ v.id) :
    fanIn rs (l ++ k) = fanIn rs l ++ k := by
  induction rs generalizing l with
  | nil => rfl
  | cons r rest ih =>
    cases r with
    | rejected reason =>
      rw [fanIn, fanIn]
      exact ih _ fun v hv => hk v (List.mem_cons_of_mem _ hv)
    | fulfilled v =>
      rw [fanIn, fanIn, applyUpdate_append v l k (hk v (List.mem_cons_self _ _))]
      exact ih _ fun w hw => hk w (List.mem_cons_of_mem _ hw)

theorem processBatch_submission (env : RoundEnv) (bg : Base64Image)
    (batch : List EmployeeImage) (m1 mS : AppModel) (newJobs : List EmployeeImage)
    (hImgs : mS.employeeImages = m1.employeeImages ++ newJobs)
    (hfresh : ∀ j ∈ newJobs, ∀ p ∈ batch, j.id ≠ p.id) :
    (processBatch env bg batch mS).1.employeeImages
      = (processBatch env bg batch m1).1.employeeImages ++ newJobs
    ∧ (processBatch env bg batch mS).2 = (processBatch env bg batch m1).2 := by
  constructor
  · show fanIn ((batchTasks env bg 0 batch).map Prod.fst) mS.employeeImages
        = fanIn ((batchTasks env bg 0 batch).map Prod.fst) m1.employeeImages ++ newJobs
    rw [hImgs]
    apply fanIn_append
    intro v hv r hr
    have hvid : v.id ∈ batch.map (fun x => x.id) := by
      rw [← resultIds_batchTasks env bg 0 batch]
      exact mem_resultIds_of_mem hv
    obtain ⟨p, hp, hpid⟩ := List.mem_map.mp hvid
    rw [← hpid]
    exact hfresh r hr p hp
  · rfl

theorem ensureBackground_appState (env : RoundEnv) (batch : List EmployeeImage)
    (m1 : AppModel) :
    (ensureBackgroundAndProcess env batch m1).1.appState = .idle := by
  unfold ensureBackgroundAndProcess
  rcases hmb : m1.masterBackground with _ | bg
  · rcases hbgv : env.bg with e | u
    · rfl
    · rfl
  · rfl

theorem map_errMark_fresh (batch : List EmployeeImage) (e : String)
    (newJobs : List EmployeeImage)
    (hfresh : ∀ j ∈ newJobs, ∀ p ∈ batch, j.id ≠ p.id) :
    newJobs.map (fun img =>
      if batch.any (fun p => p.id == img.id)
      then {img with status := ProcessingStatus.error, error := some e} else img) = newJobs := by
  induction newJobs with
  | nil => rfl
  | cons j rest ih =>
    rw [List.map_cons]
    have hanyf : ¬ ((batch.any fun p => p.id == j.id) = true) := by
      intro hc
      obtain ⟨p, hp, hpe⟩ := List.any_eq_true.mp hc
      exact hfresh j (List.mem_cons_self _ _) p hp (beq_iff_eq.mp hpe).symm
    rw [if_neg hanyf, ih fun q hq => hfresh q (List.mem_cons_of_mem _ hq)]

theorem ensureBackground_submission (env : RoundEnv) (batch : List EmployeeImage)
    (m1 mS : AppModel) (newJobs : List EmployeeImage)
    (hImgs : mS.employeeImages = m1.employeeImages ++ newJobs)
    (hmb : mS.masterBackground = m1.masterBackground)
    (hfresh : ∀ j ∈ newJobs, ∀ p ∈ batch, j.id ≠ p.id) :
    (ensureBackgroundAndProcess env batch mS).1.employeeImages
      = (ensureBackgroundAndProcess env batch m1).1.employeeImages ++ newJobs
    ∧ (ensureBackgroundAndProcess env batch mS).2
      = (ensureBackgroundAndProcess env batch m1).2 := by
  unfold ensureBackgroundAndProcess
  rw [hmb]
  rcases hmb1 : m1.masterBackground with _ | bg
  · rcases hbgv : env.bg with e | u
    · constructor
      · show (mS.employeeImages.map fun img =>
            if batch.any (fun p => p.id == img.id)
            then {img with status := ProcessingStatus.error, error := some e} else img)
          = (m1.employeeImages.map fun img =>
            if batch.any (fun p => p.id == img.id)
            then {img with status := ProcessingStatus.error, error := some e} else img)
            ++ newJobs
        rw [hImgs, List.map_append, map_errMark_fresh batch e newJobs hfresh]
      · rfl
    · have h := processBatch_submission env ⟨(jsSplitComma u).getD 1 "", "image/png"⟩ batch
        {m1 with masterBackground := some ⟨(jsSplitComma u).getD 1 "", "image/png"⟩}
        {mS with masterBackground := some ⟨(jsSplitComma u).getD 1 "", "image/png"⟩}
        newJobs hImgs hfresh
      exact ⟨h.1, congrArg (List.cons ExtCall.genBackground) h.2⟩
  · exact processBatch_submission env bg batch m1 mS newJobs hImgs hfresh

/-- Claim C5 as amended: a job submitted while a batch is in flight, whose id
does not collide with a batch member's id, is untouched by that round's
updates: the round's final registry is the no-submission round's registry
with the new records appended unchanged, the external-call trace is the
same, the orchestrator returns to idle, and the new job (still `pending`) is
in the next round's pending snapshot. -/
theorem C5_midflight_submission_stays_pending (env : RoundEnv) (m : AppModel)
    (newJobs : List EmployeeImage) (L : Base64Image)
    (hlogo : m.companyLogo = some L)
    (hne : pendingOf m ≠ [])
    (hpend : ∀ j ∈ newJobs, j.status = .pending)
    (hfresh : ∀ j ∈ newJobs, ∀ p ∈ pendingOf m, j.id ≠ p.id) :
    (processPendingImagesWithSubmission env m newJobs).1.employeeImages
      = (processPendingImages env m).1.employeeImages ++ newJobs
    ∧ (processPendingImagesWithSubmission env m newJobs).2 = (processPendingImages env m).2
    ∧ (processPendingImagesWithSubmission env m newJobs).1.appState = .idle
    ∧ ∀ j ∈ newJobs,
        j ∈ ((processPendingImagesWithSubmission env m newJobs).1.employeeImages.filter
          (fun r => r.status == .pending)) := by
  rw [processPendingImages_eq env m L hlogo hne,
    processPendingImagesWithSubmission_eq env m newJobs L hlogo hne]
  have hsub := ensureBackground_submission env (pendingOf m)
    {m with
      appState := .processing_photos
      employeeImages := m.employeeImages.map fun img =>
        if (pendingOf m).any (fun p => p.id == img.id)
        then {img with status := .processing} else img}
    {m with
      appState := .processing_photos
      employeeImages := (m.employeeImages.map fun img =>
        if (pendingOf m).any (fun p => p.id == img.id)
        then {img with status := .processing} else img) ++ newJobs}
    newJobs rfl rfl hfresh
  refine ⟨hsub.1, hsub.2, ensureBackground_appState env (pendingOf m) _, ?_⟩
  intro j hj
  refine List.mem_filter.mpr ⟨?_, ?_⟩
  · rw [hsub.1]
    exact List.mem_append_right _ hj
  · rw [hpend j hj]
    rfl

/-- A job submitted mid-flight whose id collides with the batch member's. -/
def newJobColliding : EmployeeImage := ⟨"a-1", ⟨"a", 1⟩, "blob:9", none, .pending, none⟩

/-- Counterexample to C5 as stated: when the background step fails, the
batch-wide failure update keys on ids, so a job submitted while the batch
was in flight — sharing the batch member's id — is marked `error`: it does
not stay `pending` and is not picked up by a next round. -/
theorem C5_midflight_submission_counterexample :
    newJobColliding.status = .pending
    ∧ ((processPendingImagesWithSubmission envBgFail mOnePending
        [newJobColliding]).1.employeeImages.map (fun r => r.status))
      = [.error, .error] := by decide

/-- A job submitted mid-flight with a fresh id. -/
def newJobFresh : EmployeeImage := ⟨"b-2", ⟨"b", 2⟩, "blob:9", none, .pending, none⟩

/-- Witness for C5 (amended) at the one-job model with a fresh-id mid-flight
submission. -/
theorem C5_midflight_submission_stays_pending_witness :
    (processPendingImagesWithSubmission envAllOk mOnePending [newJobFresh]).1.employeeImages
      = (processPendingImages envAllOk mOnePending).1.employeeImages ++ [newJobFresh]
    ∧ (processPendingImagesWithSubmission envAllOk mOnePending [newJobFresh]).1.appState = .idle
    ∧ newJobFresh ∈ ((processPendingImagesWithSubmission envAllOk mOnePending
        [newJobFresh]).1.employeeImages.filter (fun r => r.status == .pending)) := by
  have h := C5_midflight_submission_stays_pending envAllOk mOnePending [newJobFresh]
    ⟨"TE9HTw", "image/png"⟩ rfl (by decide) (by decide) (by decide)
  exact ⟨h.1, h.2.2.1, h.2.2.2 newJobFresh (List.mem_cons_self _ _)⟩

/-! ### Job identifiers (C8): `` `${file.name}-${file.lastModified}` ``

The decimal rendering of `lastModified` contains only digit characters, so
the single `-` separator makes `mkId` injective on (name, lastModified)
pairs; ids collide exactly for identical metadata. -/

theorem digitChar_ne_dash : ∀ m : Nat, m < 10 → Nat.digitChar m ≠ '-' := by decide

theorem digitChar_inj_lt : ∀ a : Nat, a < 10 → ∀ b : Nat, b < 10 →
    Nat.digitChar a = Nat.digitChar b → a = b := by decide

theorem toDigitsCore_acc (fuel : Nat) : ∀ (n : Nat) (ds : List Char),
    Nat.toDigitsCore 10 fuel n ds = Nat.toDigitsCore 10 fuel n [] ++ ds := by
  induction fuel with
  | zero => intro n ds; simp [Nat.toDigitsCore]
  | succ f ih =>
    intro n ds
    simp only [Nat.toDigitsCore]
    by_cases h : n / 10 = 0
    · simp [h]
    · simp only [h, if_false]
      rw [ih (n / 10) (Nat.digitChar (n % 10) :: ds), ih (n / 10) [Nat.digitChar (n % 10)],
        List.append_assoc]
      rfl

theorem toDigitsCore_fuel : ∀ n : Nat, ∀ fuel : Nat, n < fuel →
    Nat.toDigitsCore 10 fuel n [] = Nat.toDigits 10 n := by
  intro n
  induction n using Nat.strong_induction_on with
  | _ n ih =>
    intro fuel hf
    cases fuel with
    | zero => exact absurd hf (Nat.not_lt_zero n)
    | succ f =>
      show Nat.toDigitsCore 10 (f + 1) n [] = Nat.toDigitsCore 10 (n + 1) n []
      simp only [Nat.toDigitsCore]
      by_cases h : n / 10 = 0
      · simp [h]
      · simp only [h, if_false]
        have hnz : 0 < n := by
          rcases Nat.eq_zero_or_pos n with rfl | hp
          · exact absurd (by decide : (0 : Nat) / 10 = 0) h
          · exact hp
        have hn10 : n / 10 < n := Nat.div_lt_self hnz (by decide)
        have h1 : n / 10 < f := by omega
        rw [toDigitsCore_acc f (n / 10), toDigitsCore_acc n (n / 10),
          ih (n / 10) hn10 f h1, ih (n / 10) hn10 n hn10]

theorem toDigits_shape_lt (n : Nat) (h : n < 10) :
    Nat.toDigits 10 n = [Nat.digitChar n] := by
  show Nat.toDigitsCore 10 (n + 1) n [] = [Nat.digitChar n]
  simp only [Nat.toDigitsCore]
  simp [Nat.div_eq_of_lt h, Nat.mod_eq_of_lt h]

theorem toDigits_shape_ge (n : Nat) (h : 10 ≤ n) :
    Nat.toDigits 10 n = Nat.toDigits 10 (n / 10) ++ [Nat.digitChar (n % 10)] := by
  show Nat.toDigitsCore 10 (n + 1) n [] = _
  simp only [Nat.toDigitsCore]
  have hd1 : 1 ≤ n / 10 := (Nat.le_div_iff_mul_le (by decide)).mpr (by omega)
  have hd : ¬ (n / 10 = 0) := by omega
  simp only [hd, if_false]
  rw [toDigitsCore_acc n (n / 10),
    toDigitsCore_fuel (n / 10) n (Nat.div_lt_self (by omega) (by decide))]

theorem toDigits_ne_nil (n : Nat) : Nat.toDigits 10 n ≠ [] := by
  by_cases h : n < 10
  · rw [toDigits_shape_lt n h]
    simp
  · rw [toDigits_shape_ge n (Nat.le_of_not_lt h)]
    simp

theorem mem_toDigits_digit (n : Nat) :
    ∀ c ∈ Nat.toDigits 10 n, ∃ m, m < 10 ∧ c = Nat.digitChar m := by
  induction n using Nat.strong_induction_on with
  | _ n ih =>
    by_cases h : n < 10
    · rw [toDigits_shape_lt n h]
      intro c hc
      exact ⟨n, h, List.mem_singleton.mp hc⟩
    · rw [toDigits_shape_ge n (Nat.le_of_not_lt h)]
      intro c hc
      rcases List.mem_append.mp hc with h1 | h1
      · exact ih (n / 10) (Nat.div_lt_self (by omega) (by decide)) c h1
      · exact ⟨n % 10, Nat.mod_lt n (by decide), List.mem_singleton.mp h1⟩

theorem toDigits_inj : ∀ m : Nat, ∀ n : Nat,
    Nat.toDigits 10 m = Nat.toDigits 10 n → m = n := by
  intro m
  induction m using Nat.strong_induction_on with
  | _ m ih =>
    intro n heq
    by_cases hm : m < 10 <;> by_cases hn : n < 10
    · rw [toDigits_shape_lt m hm, toDigits_shape_lt n hn] at heq
      exact digitChar_inj_lt m hm n hn (List.cons.inj heq).1
    · rw [toDigits_shape_lt m hm, toDigits_shape_ge n (Nat.le_of_not_lt hn)] at heq
      have hl := congrArg List.length heq
      simp only [List.length_singleton, List.length_append] at hl
      have : (Nat.toDigits 10 (n / 10)).length = 0 := by omega
      exact absurd (List.length_eq_zero.mp this) (toDigits_ne_nil (n / 10))
    · rw [toDigits_shape_ge m (Nat.le_of_not_lt hm), toDigits_shape_lt n hn] at heq
      have hl := congrArg List.length heq
      simp only [List.length_singleton, List.length_append] at hl
      have : (Nat.toDigits 10 (m / 10)).length = 0 := by omega
      exact absurd (List.length_eq_zero.mp this) (toDigits_ne_nil (m / 10))
    · rw [toDigits_shape_ge m (Nat.le_of_not_lt hm),
        toDigits_shape_ge n (Nat.le_of_not_lt hn)] at heq
      have hsplit := List.append_inj' heq rfl
      have h1 : m / 10 = n / 10 :=
        ih (m / 10) (Nat.div_lt_self (by omega) (by decide)) (n / 10) hsplit.1
      have h2 : m % 10 = n % 10 :=
        digitChar_inj_lt (m % 10) (Nat.mod_lt m (by decide)) (n % 10)
          (Nat.mod_lt n (by decide)) (List.cons.inj hsplit.2).1
      have hm' := Nat.div_add_mod m 10
      have hn' := Nat.div_add_mod n 10
      omega

theorem repr_data_eq_toDigits (n : Nat) : (Nat.repr n).data = Nat.toDigits 10 n := rfl

theorem repr_inj (m n : Nat) (h : Nat.repr m = Nat.repr n) : m = n := by
  apply toDigits_inj
  rw [← repr_data_eq_toDigits, ← repr_data_eq_toDigits, h]

/-- First-separator splitting: with the separator absent from both prefixes,
equal separated concatenations have equal parts. -/
theorem sep_split : ∀ (l1 l2 r1 r2 : List Char), ('-' ∉ l1) → ('-' ∉ l2) →
    l1 ++ '-' :: r1 = l2 ++ '-' :: r2 → l1 = l2 ∧ r1 = r2 := by
  intro l1
  induction l1 with
  | nil =>
    intro l2 r1 r2 _ h2 heq
    cases l2 with
    | nil => exact ⟨rfl, (List.cons.inj heq).2⟩
    | cons c t =>
      exfalso
      apply h2
      rw [(List.cons.inj heq).1]
      exact List.mem_cons_self _ _
  | cons a t ih =>
    intro l2 r1 r2 h1 h2 heq
    cases l2 with
    | nil =>
      exfalso
      apply h1
      rw [← (List.cons.inj heq).1]
      exact List.mem_cons_self _ _
    | cons b t2 =>
      obtain ⟨hab, htail⟩ := List.cons.inj heq
      have hrest := ih t2 r1 r2 (fun hm => h1 (List.mem_cons_of_mem _ hm))
        (fun hm => h2 (List.mem_cons_of_mem _ hm)) htail
      exact ⟨by rw [hab, hrest.1], hrest.2⟩

theorem dash_not_mem_repr (n : Nat) : '-' ∉ (Nat.repr n).data := by
  intro hm
  rw [repr_data_eq_toDigits] at hm
  obtain ⟨mm, hmm, hc⟩ := mem_toDigits_digit n '-' hm
  exact digitChar_ne_dash mm hmm hc.symm

theorem mkId_inj (f g : FileMeta) (h : mkId f = mkId g) : f = g := by
  have hdata : f.name.data ++ '-' :: (Nat.repr f.lastModified).data
      = g.name.data ++ '-' :: (Nat.repr g.lastModified).data := by
    have h' := congrArg String.data h
    simp only [mkId, String.data_append,
      show ∀ k : Nat, toString k = Nat.repr k from fun _ => rfl,
      show ("-" : String).data = ['-'] from rfl] at h'
    simpa [List.append_assoc] using h'
  have hrev := congrArg List.reverse hdata
  simp only [List.reverse_append, List.reverse_cons, List.append_assoc,
    List.singleton_append] at hrev
  have hd1 : '-' ∉ (Nat.repr f.lastModified).data.reverse := by
    rw [List.mem_reverse]
    exact dash_not_mem_repr f.lastModified
  have hd2 : '-' ∉ (Nat.repr g.lastModified).data.reverse := by
    rw [List.mem_reverse]
    exact dash_not_mem_repr g.lastModified
  have hsplit := sep_split _ _ _ _ hd1 hd2 hrev
  have hlm : f.lastModified = g.lastModified := by
    apply repr_inj
    apply String.ext
    exact List.reverse_injective hsplit.1
  have hname : f.name = g.name := by
    apply String.ext
    exact List.reverse_injective hsplit.2
  cases f with
  | mk fn fl =>
    cases g with
    | mk gn gl =>
      simp only at hname hlm
      rw [hname, hlm]

/-- Claim C8 as amended: ids derived from the upload metadata are injective
in the (name, lastModified) pair, so uploads of files with pairwise-distinct
metadata into an empty registry yield pairwise-distinct record ids.  Two
submissions of identical metadata do collide (see the counterexample), which
is the only way a collision arises. -/
theorem C8_id_injective_on_metadata :
    (∀ f g : FileMeta, mkId f = mkId g → f = g)
    ∧ ∀ (u : FileMeta → String) (files : List FileMeta) (m : AppModel),
        m.employeeImages = [] → files.Nodup →
        (((handleEmployeesUpload u files m).employeeImages).map (fun r => r.id)).Nodup := by
  refine ⟨mkId_inj, ?_⟩
  intro u files m hempty hnd
  unfold handleEmployeesUpload
  simp only [hempty, List.nil_append, List.map_map]
  exact hnd.map fun a b hab => mkId_inj a b hab

/-- The registry after the same file (same name, same `lastModified`) is
submitted in two separate uploads. -/
def uploadSameFileTwice : AppModel :=
  handleEmployeesUpload (fun _ => "blob:1") [⟨"a", 1⟩]
    (handleEmployeesUpload (fun _ => "blob:0") [⟨"a", 1⟩]
      ⟨.needs_photos, none, some ⟨"TE9HTw", "image/png"⟩, []⟩)

/-- Counterexample to C8 as stated: two distinct submissions of a file with
identical metadata produce two records sharing the id `"a-1"`. -/
theorem C8_identical_metadata_collision_counterexample :
    ¬ ((uploadSameFileTwice.employeeImages.map (fun r => r.id)).Nodup) := by decide

/-- Witness for C8 (amended): injectivity applied at a concrete pair, and a
distinct-metadata upload with collision-free ids. -/
theorem C8_id_injective_on_metadata_witness :
    ((⟨"a", 1⟩ : FileMeta) = ⟨"a", 1⟩)
    ∧ (((handleEmployeesUpload (fun _ => "blob:0") [⟨"a", 1⟩, ⟨"b", 2⟩]
        ⟨.needs_photos, none, some ⟨"TE9HTw", "image/png"⟩, []⟩).employeeImages).map
        (fun r => r.id)).Nodup := by
  have h := C8_id_injective_on_metadata
  exact ⟨h.1 ⟨"a", 1⟩ ⟨"a", 1⟩ rfl,
    h.2 (fun _ => "blob:0") [⟨"a", 1⟩, ⟨"b", 2⟩] _ rfl (by decide)⟩

end Harmonizer
